import Mathlib

/-!
Verification of the GPPN / Veritas core against its specification.

Shallow embedding of the Rust sources:
  - gppn-core/src/state_machine.rs      (payment state machine)
  - gppn-core/src/payment_message.rs    (signing payload, builder)
  - gppn-settlement/src/adapters/internal.rs (double-entry ledger adapter)
  - gppn-settlement/src/htlc.rs         (hash time-locked contracts)
  - gppn-routing/src/drt.rs, pathfinder.rs, route.rs  (routing)
  - veritas-credentials/src/verifier.rs (credential verification)
  - veritas-crypto/src/hashing.rs, zkp.rs (commitments, Merkle, set membership)

Machine integers are modelled as `Nat`/`Int`; byte strings as `List Nat`;
the BLAKE3 hash is an abstract parameter `H : List Nat → List Nat`;
`f64` values are modelled as exact rationals, with IEEE-754 double rounding
made explicit (`roundF64`) at the operations whose rounding is observable.
-/

namespace GPPN

/-! ## Payment state machine (gppn-core/src/state_machine.rs) -/

/-- The 8 states of a Payment Message lifecycle, as in `PaymentState`. -/
inductive PaymentState where
  | Created
  | Routed
  | Accepted
  | Settling
  | Settled
  | Failed
  | Expired
  | Cancelled
deriving DecidableEq, Repr

/-- Events that trigger state transitions, as in `PaymentEvent`. -/
inductive PaymentEvent where
  | RouteFound
  | Accepted
  | SettlementStarted
  | SettlementConfirmed
  | SettlementFailed
  | Expired
  | Cancelled
  | RetryRoute
deriving DecidableEq, Repr

/-- Whether this is a final (terminal) state (`PaymentState::is_final`). -/
def PaymentState.isFinal : PaymentState → Bool
  | .Settled => true
  | .Expired => true
  | .Cancelled => true
  | _ => false

/-- The error payload of `CoreError::InvalidStateTransition { from, to }`. -/
structure InvalidTransition where
  from_ : PaymentState
  to_ : PaymentState
deriving DecidableEq, Repr

/-- The `target` state the code names in the error branch of `transition`:
for each event, the state the event would have led to. -/
def eventTarget : PaymentEvent → PaymentState
  | .RouteFound => .Routed
  | .Accepted => .Accepted
  | .SettlementStarted => .Settling
  | .SettlementConfirmed => .Settled
  | .SettlementFailed => .Failed
  | .Expired => .Expired
  | .Cancelled => .Cancelled
  | .RetryRoute => .Routed

/-- `PaymentStateMachine::transition`, embedded clause by clause from the
match in state_machine.rs lines 127-168. -/
def transition (current : PaymentState) (event : PaymentEvent) :
    Except InvalidTransition PaymentState :=
  match current, event with
  | .Created, .RouteFound => .ok .Routed
  | .Created, .Expired => .ok .Expired
  | .Created, .Cancelled => .ok .Cancelled
  | .Routed, .Accepted => .ok .Accepted
  | .Routed, .SettlementFailed => .ok .Failed
  | .Routed, .Expired => .ok .Expired
  | .Routed, .Cancelled => .ok .Cancelled
  | .Accepted, .SettlementStarted => .ok .Settling
  | .Accepted, .SettlementFailed => .ok .Failed
  | .Accepted, .Expired => .ok .Expired
  | .Accepted, .Cancelled => .ok .Cancelled
  | .Settling, .SettlementConfirmed => .ok .Settled
  | .Settling, .SettlementFailed => .ok .Failed
  | .Failed, .RetryRoute => .ok .Routed
  | _, _ => .error ⟨current, eventTarget event⟩

/-- The transition table of spec section 4.1, written row by row from the
spec's table (spec.md, section 4.1): `none` means the pair is absent. -/
def specTable : PaymentState → PaymentEvent → Option PaymentState
  | .Created, .RouteFound => some .Routed
  | .Created, .Expired => some .Expired
  | .Created, .Cancelled => some .Cancelled
  | .Routed, .Accepted => some .Accepted
  | .Routed, .SettlementFailed => some .Failed
  | .Routed, .Expired => some .Expired
  | .Routed, .Cancelled => some .Cancelled
  | .Accepted, .SettlementStarted => some .Settling
  | .Accepted, .SettlementFailed => some .Failed
  | .Accepted, .Expired => some .Expired
  | .Accepted, .Cancelled => some .Cancelled
  | .Settling, .SettlementConfirmed => some .Settled
  | .Settling, .SettlementFailed => some .Failed
  | .Failed, .RetryRoute => some .Routed
  | _, _ => none

instance : Fintype PaymentState :=
  ⟨⟨{.Created, .Routed, .Accepted, .Settling, .Settled, .Failed, .Expired,
     .Cancelled}, by decide⟩, by intro x; cases x <;> decide⟩

instance : Fintype PaymentEvent :=
  ⟨⟨{.RouteFound, .Accepted, .SettlementStarted, .SettlementConfirmed,
     .SettlementFailed, .Expired, .Cancelled, .RetryRoute}, by decide⟩,
   by intro x; cases x <;> decide⟩

/-- C1: for every pair (state, event), `transition` returns exactly the
target state given by the spec 4.1 table when the pair is in the table, and
an InvalidStateTransition error otherwise; in particular the terminal
states Settled, Expired, Cancelled accept no events, and from Settling the
events Cancelled and Expired are rejected. -/
theorem transition_matches_spec_table :
    (∀ s e, transition s e =
      (match specTable s e with
       | some t => .ok t
       | none => .error ⟨s, eventTarget e⟩)) ∧
    (∀ s e, s.isFinal = true → specTable s e = none) ∧
    specTable .Settling .Cancelled = none ∧
    specTable .Settling .Expired = none := by
  refine ⟨?_, ?_, rfl, rfl⟩
  · intro s e; cases s <;> cases e <;> rfl
  · intro s e hs; cases s <;> cases e <;> first | rfl | exact absurd hs (by decide)

/-! ## Bytes, strings, currencies (gppn-core/src/types.rs) -/

/-- Big-endian byte encoding of `n` in exactly `w` bytes, the model of
Rust's `to_be_bytes` on a `w`-byte unsigned integer (the value is reduced
modulo `256 ^ w`, as the fixed-width type does). -/
def beBytes : Nat → Nat → List Nat
  | 0, _ => []
  | w + 1, n => beBytes w (n / 256) ++ [n % 256]

theorem beBytes_length (w n : Nat) : (beBytes w n).length = w := by
  induction w generalizing n with
  | zero => rfl
  | succ w ih => simp [beBytes, ih]

/-- The bytes of a string. DID URIs and currency codes in this code base
are ASCII, where the UTF-8 bytes are the code points. -/
def strBytes (s : String) : List Nat := s.data.map Char.toNat

/-- ISO 4217 fiat currencies (`FiatCurrency`). -/
inductive FiatCurrency where
  | BRL | USD | EUR | GBP | JPY | CNY | CHF | AUD | CAD | INR
deriving DecidableEq, Repr

/-- Cryptocurrencies (`CryptoCurrency`). -/
inductive CryptoCurrency where
  | BTC | ETH | SOL | USDC | USDT
deriving DecidableEq, Repr

/-- Currency types supported by GPPN (`Currency`). -/
inductive Currency where
  | Fiat (c : FiatCurrency)
  | Crypto (c : CryptoCurrency)
  | Custom (code : String)
deriving DecidableEq, Repr

/-- `FiatCurrency::code`. -/
def FiatCurrency.code : FiatCurrency → String
  | .BRL => "BRL" | .USD => "USD" | .EUR => "EUR" | .GBP => "GBP"
  | .JPY => "JPY" | .CNY => "CNY" | .CHF => "CHF" | .AUD => "AUD"
  | .CAD => "CAD" | .INR => "INR"

/-- `CryptoCurrency::code`. -/
def CryptoCurrency.code : CryptoCurrency → String
  | .BTC => "BTC" | .ETH => "ETH" | .SOL => "SOL"
  | .USDC => "USDC" | .USDT => "USDT"

/-- The `Display` rendering of a currency (`impl fmt::Display for Currency`):
the fiat or crypto code, or the custom code string. -/
def Currency.display : Currency → String
  | .Fiat c => c.code
  | .Crypto c => c.code
  | .Custom code => code

/-- `Amount { value: u128, currency }`. -/
structure Amount where
  value : Nat
  currency : Currency
deriving DecidableEq, Repr

/-- `Amount::is_zero`. -/
def Amount.isZero (a : Amount) : Bool := a.value == 0

/-- `SettlementHint`. -/
structure SettlementHint where
  adapter_id : String
  priority : Nat
  params : List (String × String)
deriving DecidableEq, Repr

/-- `ConditionType`. -/
inductive ConditionType where
  | TimeExpiry | Hashlock | MultiSig | Escrow
deriving DecidableEq, Repr

/-- `Condition`. -/
structure Condition where
  condition_type : ConditionType
  params : List Nat
deriving DecidableEq, Repr

/-- `RoutingHint`. -/
structure RoutingHint where
  target_did : String
  preferred_adapters : List String
  max_hops : Nat
deriving DecidableEq, Repr

/-! ## Payment message (gppn-core/src/payment_message.rs) -/

/-- `PaymentMessage`. DIDs are carried as their URI strings
(`Did` wraps the URI string in the source); `pm_id` is the 16-byte
big-endian UUID layout that `uuid::Uuid::as_bytes` exposes. -/
structure PaymentMessage where
  pm_id : List Nat
  version : Nat
  sender_did : String
  receiver_did : String
  amount : Amount
  settlement_preferences : List SettlementHint
  conditions : List Condition
  metadata : List Nat
  ttl : Nat
  timestamp : Nat
  signature : List Nat
  routing_hints : List RoutingHint
  state : PaymentState
deriving DecidableEq, Repr

/-- `PaymentMessage::signing_payload`, built push/extend by push/extend in
the order of the source. `H` is the BLAKE3 hash (abstract; 32-byte output). -/
def signingPayload (H : List Nat → List Nat) (pm : PaymentMessage) : List Nat :=
  [pm.version] ++
  pm.pm_id ++
  beBytes 4 (strBytes pm.sender_did).length ++ strBytes pm.sender_did ++
  beBytes 4 (strBytes pm.receiver_did).length ++ strBytes pm.receiver_did ++
  beBytes 16 pm.amount.value ++
  beBytes 4 (strBytes pm.amount.currency.display).length ++
    strBytes pm.amount.currency.display ++
  beBytes 4 pm.ttl ++
  beBytes 8 pm.timestamp ++
  (if pm.metadata.isEmpty then [] else H pm.metadata)

/-- The canonical signing payload of spec section 4.1, line by line from the
spec's byte-exact block: version, pm_id, length-prefixed sender and receiver
URIs, 16-byte big-endian amount value, length-prefixed currency code,
u32 BE ttl, u64 BE timestamp, and the BLAKE3 hash of the metadata exactly
when the metadata is non-empty. -/
def specSigningPayload (H : List Nat → List Nat) (pm : PaymentMessage) : List Nat :=
  let senderBytes := strBytes pm.sender_did
  let receiverBytes := strBytes pm.receiver_did
  let currencyBytes := strBytes pm.amount.currency.display
  [pm.version] ++ pm.pm_id ++
  beBytes 4 senderBytes.length ++ senderBytes ++
  beBytes 4 receiverBytes.length ++ receiverBytes ++
  beBytes 16 pm.amount.value ++
  beBytes 4 currencyBytes.length ++ currencyBytes ++
  beBytes 4 pm.ttl ++ beBytes 8 pm.timestamp ++
  (if pm.metadata = [] then [] else H pm.metadata)

/-- C3: `signing_payload()` is deterministic — equal byte lists on every
call for a fixed message — and equals exactly the concatenation prescribed
by the spec, with the BLAKE3 hash of the metadata appended if and only if
the metadata is non-empty. -/
theorem signingPayload_deterministic_and_canonical :
    ∀ (H : List Nat → List Nat) (pm : PaymentMessage),
      signingPayload H pm = signingPayload H pm ∧
      signingPayload H pm = specSigningPayload H pm ∧
      ((∃ t, signingPayload H pm =
          [pm.version] ++ pm.pm_id ++
          beBytes 4 (strBytes pm.sender_did).length ++ strBytes pm.sender_did ++
          beBytes 4 (strBytes pm.receiver_did).length ++ strBytes pm.receiver_did ++
          beBytes 16 pm.amount.value ++
          beBytes 4 (strBytes pm.amount.currency.display).length ++
            strBytes pm.amount.currency.display ++
          beBytes 4 pm.ttl ++ beBytes 8 pm.timestamp ++ t ∧
          ((pm.metadata ≠ [] → t = H pm.metadata) ∧
           (pm.metadata = [] → t = [])))) := by
  intro H pm
  refine ⟨rfl, ?_, ?_⟩
  · simp only [signingPayload, specSigningPayload, List.isEmpty_iff]
  · refine ⟨if pm.metadata.isEmpty then [] else H pm.metadata, rfl, ?_, ?_⟩
    · intro h
      simp [List.isEmpty_iff, h]
    · intro h
      simp [h]

/-- `CoreError` (the variants exercised by message validation and the
builder). -/
inductive CoreError where
  | MissingField (f : String)
  | ValidationError (m : String)
  | InvalidAmount (m : String)
  | InvalidDid (m : String)
deriving DecidableEq, Repr

/-- `PaymentMessage::validate`, check for check in source order. -/
def PaymentMessage.validate (pm : PaymentMessage) : Except CoreError Unit :=
  if pm.sender_did.isEmpty then
    .error (.MissingField "sender_did")
  else if pm.receiver_did.isEmpty then
    .error (.MissingField "receiver_did")
  else if pm.sender_did = pm.receiver_did then
    .error (.ValidationError "sender and receiver must be different")
  else if pm.amount.isZero then
    .error (.InvalidAmount "amount must be greater than zero")
  else if pm.ttl = 0 then
    .error (.ValidationError "TTL must be greater than zero")
  else if pm.timestamp = 0 then
    .error (.MissingField "timestamp")
  else if pm.version = 0 then
    .error (.ValidationError "version must be greater than zero")
  else
    .ok ()

/-- `PaymentMessageBuilder`: `ttl` defaults to 0 (`#[derive(Default)]`),
meaning "never set" unless `.ttl(_)` was called. -/
structure PaymentMessageBuilder where
  sender_did : Option String := none
  receiver_did : Option String := none
  amount : Option Amount := none
  settlement_preferences : List SettlementHint := []
  conditions : List Condition := []
  metadata : List Nat := []
  ttl : Nat := 0
  routing_hints : List RoutingHint := []
deriving Repr

/-- Modelled from the spec: `pm_id` is a "128-bit time-ordered identifier"
assigned at build time by the external `uuid::Uuid::now_v7()` (not part of
this repository). Per RFC 9562 a UUIDv7 is 6 bytes of big-endian millisecond
timestamp, a byte with high nibble 0b0111 (the version) and 4 random bits,
one random byte, a byte with the two variant bits 0b10 and 6 random bits,
then 7 random bytes. `randA` carries 12 random bits, `randB` 62. -/
def mkUuidV7 (tsMs randA randB : Nat) : List Nat :=
  beBytes 6 tsMs ++ [112 + randA / 256 % 16, randA % 256] ++
    [128 + randB / 2 ^ 56 % 64] ++ beBytes 7 randB

/-- The nil UUID: sixteen zero bytes (`uuid::Uuid::is_nil`). -/
def nilUuid : List Nat := List.replicate 16 0

/-- `PaymentMessageBuilder::build`. The two impure calls of the source,
`Uuid::now_v7()` and `Utc::now().timestamp_millis()`, are passed in as the
`pmId` and `nowMs` arguments. -/
def PaymentMessageBuilder.build (b : PaymentMessageBuilder)
    (pmId : List Nat) (nowMs : Nat) : Except CoreError PaymentMessage :=
  match b.sender_did with
  | none => .error (.MissingField "sender_did")
  | some sender =>
    match b.receiver_did with
    | none => .error (.MissingField "receiver_did")
    | some receiver =>
      match b.amount with
      | none => .error (.MissingField "amount")
      | some amount =>
        let ttl := if b.ttl > 0 then b.ttl else 300
        let pm : PaymentMessage :=
          { pm_id := pmId
            version := 1
            sender_did := sender
            receiver_did := receiver
            amount := amount
            settlement_preferences := b.settlement_preferences
            conditions := b.conditions
            metadata := b.metadata
            ttl := ttl
            timestamp := nowMs
            signature := []
            routing_hints := b.routing_hints
            state := .Created }
        match pm.validate with
        | .error e => .error e
        | .ok _ => .ok pm

theorem mkUuidV7_ne_nil (tsMs randA randB : Nat) :
    mkUuidV7 tsMs randA randB ≠ nilUuid := by
  intro h
  have h6 : (mkUuidV7 tsMs randA randB).get? 6 = nilUuid.get? 6 := by rw [h]
  have hlen : (beBytes 6 tsMs).length = 6 := beBytes_length 6 tsMs
  have hassoc : mkUuidV7 tsMs randA randB =
      beBytes 6 tsMs ++ ((112 + randA / 256 % 16) :: (randA % 256) ::
        (128 + randB / 2 ^ 56 % 64) :: beBytes 7 randB) := by
    unfold mkUuidV7
    simp
  have hl : (mkUuidV7 tsMs randA randB).get? 6 = some (112 + randA / 256 % 16) := by
    rw [hassoc, List.get?_append_right (le_of_eq hlen)]
    simp [hlen]
  have hr : nilUuid.get? 6 = some 0 := by decide
  rw [hl, hr] at h6
  have := Option.some.inj h6
  omega

/-- C10 counterexample: a builder on which sender, receiver and a non-zero
amount have all been set (with the TTL left unset), yet `build()` fails,
because the sender and receiver are equal and validation rejects that; so
the claim's unconditional "build() succeeds" is false at this input. -/
theorem build_fails_when_sender_equals_receiver :
    PaymentMessageBuilder.build
      { sender_did := some "did:gppn:key:alice123"
        receiver_did := some "did:gppn:key:alice123"
        amount := some ⟨100, .Fiat .USD⟩ }
      (mkUuidV7 1 0 0) 1700000000000 =
      .error (.ValidationError "sender and receiver must be different") := by
  rfl

/-- C10 (amended): for every builder on which distinct sender and receiver
with non-empty URIs and a non-zero amount have been set, `build()` succeeds
even when the TTL was never set (or was set to 0): the built message
carries ttl 300 in that case (and the given ttl otherwise), version 1,
state Created, and the freshly assigned non-nil UUIDv7 `pm_id`. -/
theorem build_defaults_ttl_version_state (b : PaymentMessageBuilder)
    (s r : String) (a : Amount) (tsMs randA randB nowMs : Nat)
    (hs : b.sender_did = some s) (hrc : b.receiver_did = some r)
    (ha : b.amount = some a)
    (hse : s ≠ "") (hre : r ≠ "") (hsr : s ≠ r)
    (hv : a.value ≠ 0) (hnow : nowMs ≠ 0) :
    ∃ pm, b.build (mkUuidV7 tsMs randA randB) nowMs = .ok pm ∧
      pm.ttl = (if b.ttl > 0 then b.ttl else 300) ∧
      (b.ttl = 0 → pm.ttl = 300) ∧
      pm.version = 1 ∧
      pm.state = .Created ∧
      pm.pm_id = mkUuidV7 tsMs randA randB ∧
      pm.pm_id ≠ nilUuid := by
  have httl : (if b.ttl > 0 then b.ttl else 300) ≠ 0 := by
    by_cases h : 0 < b.ttl <;> simp [h]
    omega
  refine ⟨{ pm_id := mkUuidV7 tsMs randA randB, version := 1, sender_did := s,
            receiver_did := r, amount := a,
            settlement_preferences := b.settlement_preferences,
            conditions := b.conditions, metadata := b.metadata,
            ttl := if b.ttl > 0 then b.ttl else 300, timestamp := nowMs,
            signature := [], routing_hints := b.routing_hints,
            state := .Created }, ?_, rfl, ?_, rfl, rfl, rfl,
          mkUuidV7_ne_nil _ _ _⟩
  · unfold PaymentMessageBuilder.build
    rw [hs, hrc, ha]
    simp only [PaymentMessage.validate, Amount.isZero]
    have hse' : s.isEmpty = false := by
      cases hq : s.isEmpty
      · rfl
      · exact absurd ((String.isEmpty_iff _).mp hq) hse
    have hre' : r.isEmpty = false := by
      cases hq : r.isEmpty
      · rfl
      · exact absurd ((String.isEmpty_iff _).mp hq) hre
    simp [hse', hre', hsr, hv, httl, hnow]
  · intro h0
    simp [h0]

/-- C10 witness: the amended theorem applied at a concrete builder with
sender alice, receiver bob, amount 100 USD and the TTL left unset. -/
theorem build_defaults_ttl_witness :
    ∃ pm, PaymentMessageBuilder.build
      { sender_did := some "did:gppn:key:alice123"
        receiver_did := some "did:gppn:key:bob456"
        amount := some ⟨100, .Fiat .USD⟩ }
      (mkUuidV7 1 0 0) 1700000000000 = .ok pm ∧
      pm.ttl = (if (0 : Nat) > 0 then (0 : Nat) else 300) ∧
      ((0 : Nat) = 0 → pm.ttl = 300) ∧
      pm.version = 1 ∧
      pm.state = .Created ∧
      pm.pm_id = mkUuidV7 1 0 0 ∧
      pm.pm_id ≠ nilUuid :=
  build_defaults_ttl_version_state
    { sender_did := some "did:gppn:key:alice123"
      receiver_did := some "did:gppn:key:bob456"
      amount := some ⟨100, .Fiat .USD⟩ }
    "did:gppn:key:alice123" "did:gppn:key:bob456" ⟨100, .Fiat .USD⟩
    1 0 0 1700000000000 rfl rfl rfl (by decide) (by decide) (by decide)
    (by decide) (by decide)

/-! ## Association-list maps

The concurrent maps (`DashMap`) of the settlement kernel are modelled as
association lists; a claim observes them only through lookups, so the list
order is immaterial. -/

/-- First-match lookup, the model of a map `get`. -/
def alistGet {α β : Type} [DecidableEq α] (k : α) : List (α × β) → Option β
  | [] => none
  | (k', v) :: rest => if k' = k then some v else alistGet k rest

/-- Insert-or-replace, the model of a map `insert` / `get_mut` write. -/
def alistSet {α β : Type} [DecidableEq α] (k : α) (v : β) :
    List (α × β) → List (α × β)
  | [] => [(k, v)]
  | (k', v') :: rest =>
    if k' = k then (k, v) :: rest else (k', v') :: alistSet k v rest

/-- The model of `entry(k).and_modify(f).or_insert(dflt)`. -/
def alistUpd {α β : Type} [DecidableEq α] (k : α) (f : β → β) (dflt : β) :
    List (α × β) → List (α × β)
  | [] => [(k, dflt)]
  | (k', v') :: rest =>
    if k' = k then (k, f v') :: rest else (k', v') :: alistUpd k f dflt rest

theorem alistGet_set_self {α β : Type} [DecidableEq α] (k : α) (v : β)
    (l : List (α × β)) : alistGet k (alistSet k v l) = some v := by
  induction l with
  | nil => simp [alistGet, alistSet]
  | cons p rest ih =>
    by_cases h : p.1 = k
    · simp [alistSet, alistGet, h]
    · simp [alistSet, alistGet, h, ih]

theorem alistGet_set_other {α β : Type} [DecidableEq α] (k k' : α) (v : β)
    (l : List (α × β)) (h : k ≠ k') :
    alistGet k' (alistSet k v l) = alistGet k' l := by
  induction l with
  | nil => simp [alistGet, alistSet, h]
  | cons p rest ih =>
    by_cases hp : p.1 = k
    · simp [alistSet, alistGet, hp, h]
    · simp [alistSet, alistGet, hp, ih]

theorem alistGet_upd {α β : Type} [DecidableEq α] (k k' : α) (f : β → β)
    (dflt : β) (l : List (α × β)) :
    alistGet k' (alistUpd k f dflt l) =
      if k' = k then
        (match alistGet k l with
         | some v => some (f v)
         | none => some dflt)
      else alistGet k' l := by
  induction l with
  | nil =>
    by_cases h : k' = k
    · subst h; simp [alistUpd, alistGet]
    · have h' : ¬ k = k' := fun hq => h hq.symm
      simp [alistUpd, alistGet, h, h']
  | cons p rest ih =>
    obtain ⟨pk, pv⟩ := p
    by_cases hp : pk = k
    · subst hp
      by_cases h : k' = pk
      · subst h; simp [alistUpd, alistGet]
      · have h' : ¬ pk = k' := fun hq => h hq.symm
        simp [alistUpd, alistGet, h, h']
    · by_cases hq : pk = k'
      · subst hq
        have h' : ¬ pk = k := hp
        simp [alistUpd, alistGet, hp, h']
      · simp [alistUpd, alistGet, hp, hq, ih]

/-! ## Settlement kernel: internal adapter
(gppn-settlement/src/adapters/internal.rs) -/

/-- `SettlementStatus`. -/
inductive SettlementStatus where
  | Initiated | Pending | Confirmed | Failed | RolledBack
deriving DecidableEq, Repr

/-- `SettlementStatus` display strings (`impl Display`). -/
def SettlementStatus.display : SettlementStatus → String
  | .Initiated => "Initiated"
  | .Pending => "Pending"
  | .Confirmed => "Confirmed"
  | .Failed => "Failed"
  | .RolledBack => "RolledBack"

/-- `SettlementError` (UUIDs as `Nat`). -/
inductive SettlementError where
  | NotFound (id : Nat)
  | AdapterNotFound (name : String)
  | InvalidStateTransition (m : String)
  | AlreadyExists (id : Nat)
  | Expired (id : Nat)
  | HtlcError (m : String)
  | PreimageMismatch (id : Nat)
  | HtlcNotExpired (id : Nat)
  | InsufficientBalance (available required : Nat)
  | UnsupportedCurrency (c : String)
  | Internal (m : String)
deriving DecidableEq, Repr

/-- `InternalSettlement`. -/
structure InternalSettlement where
  id : Nat
  pm_id : Nat
  amount : Amount
  sender_did : String
  receiver_did : String
  status : SettlementStatus
deriving DecidableEq, Repr

/-- `LedgerEntry` (the `_id` field of the source). -/
structure LedgerEntry where
  id : Nat
  did : String
  delta : Int
  settlement_id : Nat
  currency : Currency
deriving DecidableEq, Repr

/-- `SettlementReceipt`. -/
structure SettlementReceipt where
  settlement_id : Nat
  adapter_id : String
  status : SettlementStatus
  amount : Amount
  sender_did : String
  receiver_did : String
  confirmed_at : Nat
  tx_ref : Option String
deriving DecidableEq, Repr

/-- The state of an `InternalAdapter`: settlements by id, the double-entry
ledger, balances keyed by the `"{did_uri}:{currency}"` string. `nextId`
models the freshness of `Uuid::now_v7()` draws (settlement and ledger-entry
ids). -/
structure AdapterState where
  settlements : List (Nat × InternalSettlement)
  ledger : List LedgerEntry
  balances : List (String × Int)
  nextId : Nat
deriving DecidableEq, Repr

/-- A fresh `InternalAdapter::new()`. -/
def emptyAdapter : AdapterState := ⟨[], [], [], 0⟩

/-- `InternalAdapter::balance_key`. -/
def balanceKey (did : String) (c : Currency) : String :=
  did ++ ":" ++ c.display

/-- Wrap an integer into the i128 range `[-2^127, 2^127)`: the
two's-complement wrapping arithmetic of Rust release builds (debug builds
panic on the overflowing cases instead; the model takes the wrapping
semantics). -/
def wrapI128 (n : Int) : Int := (n + 2 ^ 127) % 2 ^ 128 - 2 ^ 127

/-- Rust's `u128 as i128` cast: two's-complement reinterpretation. -/
def toI128 (v : Nat) : Int :=
  if v < 2 ^ 127 then (v : Int) else (v : Int) - 2 ^ 128

/-- Rust's i128 negation `-x`: wrapping in release builds, so
`-(i128::MIN)` is `i128::MIN` again; exact negation everywhere else. -/
def negI128 (x : Int) : Int := wrapI128 (-x)

/-- `InternalAdapter::get_balance`. -/
def getBalance (st : AdapterState) (did : String) (c : Currency) : Int :=
  (alistGet (balanceKey did c) st.balances).getD 0

/-- `InternalAdapter::record_entries`: debit the sender (ledger delta
`-value`, balance `*b -= value` / `or_insert(-value)`), credit the
receiver (`value`, `*b += value` / `or_insert(value)`), in the order of
the source; every i128 operation wraps. -/
def recordEntries (st : AdapterState) (sid : Nat)
    (sender receiver : String) (amount : Amount) : AdapterState :=
  let value := toI128 amount.value
  { st with
    ledger := st.ledger ++
      [⟨st.nextId, sender, negI128 value, sid, amount.currency⟩,
       ⟨st.nextId + 1, receiver, value, sid, amount.currency⟩]
    balances :=
      alistUpd (balanceKey receiver amount.currency)
        (fun b => wrapI128 (b + value)) value
        (alistUpd (balanceKey sender amount.currency)
          (fun b => wrapI128 (b - value)) (negI128 value) st.balances)
    nextId := st.nextId + 2 }

/-- `InternalAdapter::reverse_entries` (for rollback): sender
`*b += value` / `or_insert(value)`, receiver `*b -= value` /
`or_insert(-value)`; every i128 operation wraps. -/
def reverseEntries (st : AdapterState)
    (sender receiver : String) (amount : Amount) : AdapterState :=
  let value := toI128 amount.value
  { st with
    balances :=
      alistUpd (balanceKey receiver amount.currency)
        (fun b => wrapI128 (b - value)) (negI128 value)
        (alistUpd (balanceKey sender amount.currency)
          (fun b => wrapI128 (b + value)) value st.balances) }

/-- `InternalAdapter::initiate`. -/
def initiate (st : AdapterState) (pmId : Nat) (amount : Amount)
    (sender receiver : String) : Except SettlementError Nat × AdapterState :=
  let sid := st.nextId
  (.ok sid,
   { st with
     settlements :=
       alistSet sid ⟨sid, pmId, amount, sender, receiver, .Initiated⟩
         st.settlements
     nextId := st.nextId + 1 })

/-- `InternalAdapter::confirm`. The wall clock for `confirmed_at` is the
`nowMs` argument. -/
def confirm (st : AdapterState) (sid : Nat) (nowMs : Nat) :
    Except SettlementError SettlementReceipt × AdapterState :=
  match alistGet sid st.settlements with
  | none => (.error (.NotFound sid), st)
  | some record =>
    if record.status = .Initiated ∨ record.status = .Pending then
      let st1 := recordEntries st sid record.sender_did record.receiver_did
        record.amount
      let st2 := { st1 with
        settlements :=
          alistSet sid { record with status := .Confirmed } st1.settlements }
      (.ok { settlement_id := sid
             adapter_id := "sa-internal"
             status := .Confirmed
             amount := record.amount
             sender_did := record.sender_did
             receiver_did := record.receiver_did
             confirmed_at := nowMs
             tx_ref := some ("internal-" ++ toString record.pm_id) }, st2)
    else
      (.error (.InvalidStateTransition
        ("cannot confirm settlement in status " ++ record.status.display)), st)

/-- `InternalAdapter::rollback`. -/
def rollback (st : AdapterState) (sid : Nat) :
    Except SettlementError Unit × AdapterState :=
  match alistGet sid st.settlements with
  | none => (.error (.NotFound sid), st)
  | some record =>
    if record.status = .Initiated ∨ record.status = .Pending then
      (.ok (),
       { st with
         settlements :=
           alistSet sid { record with status := .RolledBack } st.settlements })
    else if record.status = .Confirmed then
      let st1 := reverseEntries st record.sender_did record.receiver_did
        record.amount
      (.ok (),
       { st1 with
         settlements :=
           alistSet sid { record with status := .RolledBack } st1.settlements })
    else
      (.error (.InvalidStateTransition
        ("cannot rollback settlement in status " ++ record.status.display)), st)

/-- `InternalAdapter::get_status`. -/
def getStatus (st : AdapterState) (sid : Nat) :
    Except SettlementError SettlementStatus :=
  match alistGet sid st.settlements with
  | none => .error (.NotFound sid)
  | some record => .ok record.status

/-- One operation against the internal adapter. -/
inductive AdapterOp where
  | initiate (pmId : Nat) (amount : Amount) (sender receiver : String)
  | confirm (sid : Nat) (nowMs : Nat)
  | rollback (sid : Nat)
deriving DecidableEq, Repr

/-- The state after one operation (results discarded). -/
def adapterStep (st : AdapterState) : AdapterOp → AdapterState
  | .initiate p a s r => (initiate st p a s r).2
  | .confirm sid now => (confirm st sid now).2
  | .rollback sid => (rollback st sid).2

/-- The state after a finite sequence of operations. -/
def runAdapter (st : AdapterState) : List AdapterOp → AdapterState
  | [] => st
  | op :: ops => runAdapter (adapterStep st op) ops

/-- The derived per-(DID, currency) balance of spec section 3: the sum of
the deltas of all ledger entries for that DID and currency. -/
def ledgerBalance (st : AdapterState) (did : String) (c : Currency) : Int :=
  ((st.ledger.filter fun e => decide (e.did = did ∧ e.currency = c)).map
    (·.delta)).sum

/-- The sum of the deltas of all ledger entries in one currency. -/
def ledgerCurrencySum (st : AdapterState) (c : Currency) : Int :=
  ((st.ledger.filter fun e => decide (e.currency = c)).map (·.delta)).sum

theorem toI128_of_lt (v : Nat) (h : v < 2 ^ 127) : toI128 v = v := by
  unfold toI128
  rw [if_pos h]

theorem toI128_bounds (v : Nat) (h1 : v < 2 ^ 128) (h2 : v ≠ 2 ^ 127) :
    -(2 ^ 127) < toI128 v ∧ toI128 v < 2 ^ 127 := by
  unfold toI128
  split <;> omega

theorem wrapI128_eq_self (x : Int) (h1 : -(2 ^ 127) ≤ x)
    (h2 : x < 2 ^ 127) : wrapI128 x = x := by
  unfold wrapI128
  rw [Int.emod_eq_of_lt (by omega) (by omega)]
  omega

theorem negI128_eq_neg (x : Int) (h1 : -(2 ^ 127) < x)
    (h2 : x < 2 ^ 127) : negI128 x = -x :=
  wrapI128_eq_self _ (by omega) (by omega)

theorem wrapI128_wrap_add (x y : Int) :
    wrapI128 (wrapI128 x + y) = wrapI128 (x + y) := by
  unfold wrapI128
  rw [show (x + 2 ^ 127) % 2 ^ 128 - 2 ^ 127 + y + 2 ^ 127 =
    (x + 2 ^ 127) % 2 ^ 128 + y from by ring]
  rw [Int.emod_def (x + 2 ^ 127) (2 ^ 128)]
  rw [show x + 2 ^ 127 - 2 ^ 128 * ((x + 2 ^ 127) / 2 ^ 128) + y =
    x + y + 2 ^ 127 + 2 ^ 128 * (-((x + 2 ^ 127) / 2 ^ 128)) from by ring]
  rw [Int.add_mul_emod_self_left]

theorem wrapI128_wrap_sub (x y : Int) :
    wrapI128 (wrapI128 x - y) = wrapI128 (x - y) := by
  rw [sub_eq_add_neg, wrapI128_wrap_add, ← sub_eq_add_neg]

theorem balUpd_sub_get (key k : String) (d : Int)
    (l : List (String × Int)) :
    (alistGet k (alistUpd key (fun b => wrapI128 (b - d)) (negI128 d)
      l)).getD 0 =
    if k = key then wrapI128 ((alistGet k l).getD 0 - d)
    else (alistGet k l).getD 0 := by
  rw [alistGet_upd]
  by_cases h : k = key
  · subst h
    cases hv : alistGet k l with
    | none => simp [hv, negI128, zero_sub]
    | some b => simp [hv]
  · simp [h]

theorem balUpd_add_get (key k : String) (d : Int)
    (hd1 : -(2 ^ 127) ≤ d) (hd2 : d < 2 ^ 127)
    (l : List (String × Int)) :
    (alistGet k (alistUpd key (fun b => wrapI128 (b + d)) d l)).getD 0 =
    if k = key then wrapI128 ((alistGet k l).getD 0 + d)
    else (alistGet k l).getD 0 := by
  rw [alistGet_upd]
  by_cases h : k = key
  · subst h
    cases hv : alistGet k l with
    | none => simp [hv, zero_add, wrapI128_eq_self d hd1 hd2]
    | some b => simp [hv]
  · simp [h]

/-- The settlement store only holds amounts in the u128 range whose i128
reading is not `i128::MIN` (so negating them does not wrap). -/
def SettlementsOk (st : AdapterState) : Prop :=
  ∀ sid rec, alistGet sid st.settlements = some rec →
    rec.amount.value < 2 ^ 128 ∧ rec.amount.value ≠ 2 ^ 127

theorem settlementsOk_empty : SettlementsOk emptyAdapter := by
  intro sid rec h
  simp [emptyAdapter, alistGet] at h

theorem settlementsOk_step (st : AdapterState) (op : AdapterOp)
    (hok : SettlementsOk st)
    (hop : ∀ p a s r, op = .initiate p a s r →
      a.value < 2 ^ 128 ∧ a.value ≠ 2 ^ 127) :
    SettlementsOk (adapterStep st op) := by
  cases op with
  | initiate p a s r =>
    intro sid rec hfind
    simp only [adapterStep, initiate] at hfind
    by_cases h : st.nextId = sid
    · subst h
      rw [alistGet_set_self] at hfind
      injection hfind with h2
      subst h2
      exact hop p a s r rfl
    · rw [alistGet_set_other _ _ _ _ h] at hfind
      exact hok sid rec hfind
  | confirm sid' now =>
    intro sid rec hfind
    cases h : alistGet sid' st.settlements with
    | none =>
      simp only [adapterStep, confirm, h] at hfind
      exact hok sid rec hfind
    | some record =>
      by_cases hs : record.status = .Initiated ∨ record.status = .Pending
      · simp only [adapterStep, confirm, h] at hfind
        rw [if_pos hs] at hfind
        simp only [recordEntries] at hfind
        by_cases hsid : sid' = sid
        · subst hsid
          rw [alistGet_set_self] at hfind
          injection hfind with h2
          subst h2
          exact hok sid' record h
        · rw [alistGet_set_other _ _ _ _ hsid] at hfind
          exact hok sid rec hfind
      · simp only [adapterStep, confirm, h] at hfind
        rw [if_neg hs] at hfind
        exact hok sid rec hfind
  | rollback sid' =>
    intro sid rec hfind
    cases h : alistGet sid' st.settlements with
    | none =>
      simp only [adapterStep, rollback, h] at hfind
      exact hok sid rec hfind
    | some record =>
      by_cases hs : record.status = .Initiated ∨ record.status = .Pending
      · simp only [adapterStep, rollback, h] at hfind
        rw [if_pos hs] at hfind
        by_cases hsid : sid' = sid
        · subst hsid
          rw [alistGet_set_self] at hfind
          injection hfind with h2
          subst h2
          exact hok sid' record h
        · rw [alistGet_set_other _ _ _ _ hsid] at hfind
          exact hok sid rec hfind
      · by_cases hc : record.status = .Confirmed
        · simp only [adapterStep, rollback, h] at hfind
          rw [if_neg hs, if_pos hc] at hfind
          simp only [reverseEntries] at hfind
          by_cases hsid : sid' = sid
          · subst hsid
            rw [alistGet_set_self] at hfind
            injection hfind with h2
            subst h2
            exact hok sid' record h
          · rw [alistGet_set_other _ _ _ _ hsid] at hfind
            exact hok sid rec hfind
        · simp only [adapterStep, rollback, h] at hfind
          rw [if_neg hs, if_neg hc] at hfind
          exact hok sid rec hfind

theorem ledgerCurrencySum_step (st : AdapterState) (op : AdapterOp)
    (c : Currency) (hok : SettlementsOk st) :
    ledgerCurrencySum (adapterStep st op) c = ledgerCurrencySum st c := by
  cases op with
  | initiate p a s r => rfl
  | confirm sid now =>
    show ledgerCurrencySum (confirm st sid now).2 c = ledgerCurrencySum st c
    cases h : alistGet sid st.settlements with
    | none => simp [confirm, h]
    | some record =>
      by_cases hs : record.status = .Initiated ∨ record.status = .Pending
      · obtain ⟨hv1, hv2⟩ := hok sid record h
        obtain ⟨hb1, hb2⟩ := toI128_bounds record.amount.value hv1 hv2
        have hneg : negI128 (toI128 record.amount.value) =
            -(toI128 record.amount.value) := negI128_eq_neg _ hb1 hb2
        simp only [confirm, h]
        rw [if_pos hs]
        simp only [recordEntries, ledgerCurrencySum, List.filter_append,
          List.map_append, List.sum_append]
        by_cases hc : record.amount.currency = c <;>
          simp [List.filter_cons, hc, hneg] <;> omega
      · simp only [confirm, h]
        rw [if_neg hs]
  | rollback sid =>
    show ledgerCurrencySum (rollback st sid).2 c = ledgerCurrencySum st c
    cases h : alistGet sid st.settlements with
    | none => simp [rollback, h]
    | some record =>
      by_cases hs : record.status = .Initiated ∨ record.status = .Pending
      · simp only [rollback, h]
        rw [if_pos hs]
        rfl
      · by_cases hc : record.status = .Confirmed
        · simp only [rollback, h]
          rw [if_neg hs, if_pos hc]
          simp [ledgerCurrencySum, reverseEntries]
        · simp only [rollback, h]
          rw [if_neg hs, if_neg hc]

theorem ledgerCurrencySum_run (ops : List AdapterOp) (st : AdapterState)
    (c : Currency) (h0 : ledgerCurrencySum st c = 0)
    (hok : SettlementsOk st)
    (hops : ∀ p a s r, AdapterOp.initiate p a s r ∈ ops →
      a.value < 2 ^ 128 ∧ a.value ≠ 2 ^ 127) :
    ledgerCurrencySum (runAdapter st ops) c = 0 := by
  induction ops generalizing st with
  | nil => exact h0
  | cons op ops ih =>
    exact ih (adapterStep st op)
      (by rw [ledgerCurrencySum_step st op c hok]; exact h0)
      (settlementsOk_step st op hok
        (fun p a s r he => hops p a s r
          (by rw [← he]; exact List.mem_cons_self op ops)))
      (fun p a s r hmem => hops p a s r (List.mem_cons_of_mem op hmem))

theorem sum_if_mem (D : List String) (x : String) (v : Int) :
    D.Nodup → x ∈ D → (D.map fun d => if x = d then v else 0).sum = v := by
  induction D with
  | nil => intro _ hx; cases hx
  | cons a D ih =>
    intro hnd hx
    rw [List.map_cons, List.sum_cons]
    rcases List.mem_cons.mp hx with h | h
    · subst h
      have hz : (D.map fun d => if x = d then v else 0).sum = 0 := by
        refine List.sum_eq_zero ?_
        intro y hy
        obtain ⟨d, hd, rfl⟩ := List.mem_map.mp hy
        have hne : ¬ x = d := fun hq => (List.nodup_cons.mp hnd).1 (hq ▸ hd)
        simp [hne]
      simp [hz]
    · have hxa : ¬ x = a := by
        intro hq
        subst hq
        exact (List.nodup_cons.mp hnd).1 h
      rw [if_neg hxa, ih (List.nodup_cons.mp hnd).2 h]
      ring

theorem sum_ledgerBalance (l : List LedgerEntry) (c : Currency)
    (D : List String) :
    D.Nodup → (∀ e ∈ l, e.did ∈ D) →
    (D.map fun d =>
      ((l.filter fun e => decide (e.did = d ∧ e.currency = c)).map
        (·.delta)).sum).sum =
    ((l.filter fun e => decide (e.currency = c)).map (·.delta)).sum := by
  induction l with
  | nil => intro _ _; simp
  | cons e l ih =>
    intro hnd hcov
    have he : e.did ∈ D := hcov e (by simp)
    have hcov' : ∀ x ∈ l, x.did ∈ D := fun x hx => hcov x (by simp [hx])
    have hsplit :
        (D.map fun d =>
          (((e :: l).filter fun e' =>
            decide (e'.did = d ∧ e'.currency = c)).map (·.delta)).sum) =
        D.map fun d =>
          (if e.did = d ∧ e.currency = c then e.delta else 0) +
          ((l.filter fun e' =>
            decide (e'.did = d ∧ e'.currency = c)).map (·.delta)).sum := by
      refine List.map_congr_left ?_
      intro d _
      by_cases h : e.did = d ∧ e.currency = c <;> simp [List.filter_cons, h]
    rw [hsplit, List.sum_map_add, ih hnd hcov']
    have hind :
        (D.map fun d =>
          if e.did = d ∧ e.currency = c then e.delta else 0).sum =
        if e.currency = c then e.delta else 0 := by
      by_cases hc : e.currency = c
      · simp only [hc, and_true]
        exact sum_if_mem D e.did e.delta hnd he
      · simp [hc]
    rw [hind]
    by_cases hc : e.currency = c <;> simp [List.filter_cons, hc]

/-- What a successful `confirm` does, in full generality: the ledger gains
the wrapped double entry and the two balances take the wrapped updates in
source order (`toI128` is the two's-complement signed reading of the
amount value). -/
theorem confirm_spec (st : AdapterState) (sid : Nat)
    (rec : InternalSettlement) (now : Nat)
    (hfind : alistGet sid st.settlements = some rec)
    (hstat : rec.status = .Initiated ∨ rec.status = .Pending)
    (hrange : rec.amount.value < 2 ^ 128) :
    (∃ rcp, (confirm st sid now).1 = .ok rcp) ∧
    (confirm st sid now).2.ledger = st.ledger ++
      [⟨st.nextId, rec.sender_did, negI128 (toI128 rec.amount.value), sid,
        rec.amount.currency⟩,
       ⟨st.nextId + 1, rec.receiver_did, toI128 rec.amount.value, sid,
        rec.amount.currency⟩] ∧
    (∀ d c, getBalance (confirm st sid now).2 d c =
      if balanceKey d c = balanceKey rec.receiver_did rec.amount.currency
      then wrapI128
        ((if balanceKey d c = balanceKey rec.sender_did rec.amount.currency
          then wrapI128 (getBalance st d c - toI128 rec.amount.value)
          else getBalance st d c) + toI128 rec.amount.value)
      else
        (if balanceKey d c = balanceKey rec.sender_did rec.amount.currency
         then wrapI128 (getBalance st d c - toI128 rec.amount.value)
         else getBalance st d c)) ∧
    (confirm st sid now).2.settlements =
      alistSet sid { rec with status := .Confirmed } st.settlements := by
  simp only [confirm, hfind]
  rw [if_pos hstat]
  refine ⟨⟨_, rfl⟩, rfl, ?_, rfl⟩
  intro d c
  have hr : -(2 ^ 127) ≤ toI128 rec.amount.value ∧
      toI128 rec.amount.value < 2 ^ 127 := by
    unfold toI128
    split <;> omega
  simp only [recordEntries, getBalance]
  rw [balUpd_add_get _ _ _ hr.1 hr.2, balUpd_sub_get]

/-- What a successful `rollback` of a Confirmed settlement does. -/
theorem rollback_confirmed_spec (st : AdapterState) (sid : Nat)
    (rec : InternalSettlement)
    (hfind : alistGet sid st.settlements = some rec)
    (hstat : rec.status = .Confirmed)
    (hrange : rec.amount.value < 2 ^ 128) :
    (rollback st sid).1 = .ok () ∧
    (∀ d c, getBalance (rollback st sid).2 d c =
      if balanceKey d c = balanceKey rec.receiver_did rec.amount.currency
      then wrapI128
        ((if balanceKey d c = balanceKey rec.sender_did rec.amount.currency
          then wrapI128 (getBalance st d c + toI128 rec.amount.value)
          else getBalance st d c) - toI128 rec.amount.value)
      else
        (if balanceKey d c = balanceKey rec.sender_did rec.amount.currency
         then wrapI128 (getBalance st d c + toI128 rec.amount.value)
         else getBalance st d c)) ∧
    alistGet sid (rollback st sid).2.settlements =
      some { rec with status := .RolledBack } := by
  have hr : -(2 ^ 127) ≤ toI128 rec.amount.value ∧
      toI128 rec.amount.value < 2 ^ 127 := by
    unfold toI128
    split <;> omega
  have hni : ¬ (rec.status = .Initiated ∨ rec.status = .Pending) := by
    rw [hstat]; rintro (h | h) <;> exact absurd h (by decide)
  simp only [rollback, hfind]
  rw [if_neg hni, if_pos hstat]
  refine ⟨rfl, ?_, ?_⟩
  · intro d c
    simp only [reverseEntries, getBalance]
    rw [balUpd_sub_get, balUpd_add_get _ _ _ hr.1 hr.2]
  · simp only [reverseEntries]
    exact alistGet_set_self _ _ _

set_option maxRecDepth 20000 in
/-- C2 counterexample: with `amount.value = 2^127` (a valid `u128`), the
`u128 as i128` cast in `record_entries` reads `i128::MIN`, and negating it
wraps (release builds; debug builds panic on the negation), so a confirm
posts the two ledger entries `(sender, -2^127)` and `(receiver, -2^127)` —
not the claim's `(sender, −value)`, `(receiver, +value)` — the currency's
ledger sum drops to `-2^128` instead of staying 0, and the sender's
balance reads `-2^127`. -/
theorem confirm_breaks_double_entry_at_2_pow_127 :
    (((confirm (initiate emptyAdapter 0 ⟨2 ^ 127, .Fiat .USD⟩
        "did:gppn:key:alice" "did:gppn:key:bob").2 0 0).2.ledger.map
      (·.delta)) = [-(2 ^ 127), -(2 ^ 127)] ∧
     ledgerCurrencySum (confirm (initiate emptyAdapter 0
        ⟨2 ^ 127, .Fiat .USD⟩ "did:gppn:key:alice"
        "did:gppn:key:bob").2 0 0).2 (.Fiat .USD) = -(2 ^ 128)) ∧
    ((-(2 ^ 128) : Int) ≠ 0 ∧
     getBalance (confirm (initiate emptyAdapter 0 ⟨2 ^ 127, .Fiat .USD⟩
        "did:gppn:key:alice" "did:gppn:key:bob").2 0 0).2
      "did:gppn:key:alice" (.Fiat .USD) = -(2 ^ 127)) :=
  ⟨⟨by decide, by decide⟩, by decide, by decide⟩

/-- C2 (amended): starting from a fresh InternalAdapter, for every finite
sequence of initiate, confirm and rollback operations whose initiated
amounts are valid u128 values other than `2^127`, for each currency the
sum over all DIDs of the derived (ledger) balances equals 0; each
successful confirm from status Initiated or Pending with
`amount.value < 2^127` emits exactly the two ledger entries
`(sender, −value)`, `(receiver, +value)` and applies the matching wrapped
balance updates (at `value = 2^127` the wrapping negation of release
builds posts `-2^127` to both sides instead, breaking conservation — see
the counterexample — and debug builds panic); a rollback of a Confirmed
settlement reverses exactly the two balance adjustments, so a confirm
followed by a rollback restores every in-range balance. -/
theorem internal_adapter_double_entry :
    (∀ (ops : List AdapterOp) (c : Currency) (D : List String),
      D.Nodup → (∀ e ∈ (runAdapter emptyAdapter ops).ledger, e.did ∈ D) →
      (∀ p a s r, AdapterOp.initiate p a s r ∈ ops →
        a.value < 2 ^ 128 ∧ a.value ≠ 2 ^ 127) →
      (D.map fun d => ledgerBalance (runAdapter emptyAdapter ops) d c).sum
        = 0) ∧
    (∀ (st : AdapterState) (sid : Nat) (rec : InternalSettlement)
        (now : Nat),
      alistGet sid st.settlements = some rec →
      rec.status = .Initiated ∨ rec.status = .Pending →
      rec.amount.value < 2 ^ 127 →
      (∃ rcp, (confirm st sid now).1 = .ok rcp) ∧
      (confirm st sid now).2.ledger = st.ledger ++
        [⟨st.nextId, rec.sender_did, -(rec.amount.value : Int), sid,
          rec.amount.currency⟩,
         ⟨st.nextId + 1, rec.receiver_did, (rec.amount.value : Int), sid,
          rec.amount.currency⟩] ∧
      (∀ d c, getBalance (confirm st sid now).2 d c =
        if balanceKey d c = balanceKey rec.receiver_did rec.amount.currency
        then wrapI128
          ((if balanceKey d c = balanceKey rec.sender_did
              rec.amount.currency
            then wrapI128 (getBalance st d c - (rec.amount.value : Int))
            else getBalance st d c) + (rec.amount.value : Int))
        else
          (if balanceKey d c = balanceKey rec.sender_did rec.amount.currency
           then wrapI128 (getBalance st d c - (rec.amount.value : Int))
           else getBalance st d c)) ∧
      alistGet sid (confirm st sid now).2.settlements =
        some { rec with status := .Confirmed }) ∧
    (∀ (st : AdapterState) (sid : Nat) (rec : InternalSettlement),
      alistGet sid st.settlements = some rec →
      rec.status = .Confirmed →
      rec.amount.value < 2 ^ 128 →
      (rollback st sid).1 = .ok () ∧
      (∀ d c, getBalance (rollback st sid).2 d c =
        if balanceKey d c = balanceKey rec.receiver_did rec.amount.currency
        then wrapI128
          ((if balanceKey d c = balanceKey rec.sender_did
              rec.amount.currency
            then wrapI128 (getBalance st d c + toI128 rec.amount.value)
            else getBalance st d c) - toI128 rec.amount.value)
        else
          (if balanceKey d c = balanceKey rec.sender_did rec.amount.currency
           then wrapI128 (getBalance st d c + toI128 rec.amount.value)
           else getBalance st d c)) ∧
      alistGet sid (rollback st sid).2.settlements =
        some { rec with status := .RolledBack }) ∧
    (∀ (st : AdapterState) (sid : Nat) (rec : InternalSettlement)
        (now : Nat),
      alistGet sid st.settlements = some rec →
      rec.status = .Initiated ∨ rec.status = .Pending →
      rec.amount.value < 2 ^ 128 →
      ∀ d c, -(2 ^ 127) ≤ getBalance st d c →
        getBalance st d c < 2 ^ 127 →
        getBalance (rollback (confirm st sid now).2 sid).2 d c =
          getBalance st d c) := by
  refine ⟨?_, ?_, ?_, ?_⟩
  · intro ops c D hnd hcov hvals
    have h := sum_ledgerBalance (runAdapter emptyAdapter ops).ledger c D
      hnd hcov
    have h0 : ledgerCurrencySum (runAdapter emptyAdapter ops) c = 0 :=
      ledgerCurrencySum_run ops emptyAdapter c rfl settlementsOk_empty hvals
    simp only [ledgerBalance]
    rw [h]
    exact h0
  · intro st sid rec now hfind hstat hsmall
    have hrange : rec.amount.value < 2 ^ 128 := by omega
    have hw : toI128 rec.amount.value = (rec.amount.value : Int) :=
      toI128_of_lt _ hsmall
    have hng : negI128 (toI128 rec.amount.value) =
        -(rec.amount.value : Int) := by
      rw [hw]
      exact negI128_eq_neg _ (by omega) (by exact_mod_cast hsmall)
    obtain ⟨hok, hledger, hbal, hset⟩ := confirm_spec st sid rec now
      hfind hstat hrange
    refine ⟨hok, by rw [hledger, hng, hw], ?_, ?_⟩
    · intro d c
      rw [hbal d c, hw]
    · rw [hset]
      exact alistGet_set_self _ _ _
  · intro st sid rec hfind hstat hrange
    exact rollback_confirmed_spec st sid rec hfind hstat hrange
  · intro st sid rec now hfind hstat hrange d c hlo hhi
    obtain ⟨-, -, hbal1, hset⟩ := confirm_spec st sid rec now hfind hstat
      hrange
    have hfind2 : alistGet sid (confirm st sid now).2.settlements =
        some { rec with status := .Confirmed } := by
      rw [hset]
      exact alistGet_set_self _ _ _
    have hbal2 : ∀ d c, getBalance (rollback (confirm st sid now).2 sid).2
        d c =
      if balanceKey d c = balanceKey rec.receiver_did rec.amount.currency
      then wrapI128
        ((if balanceKey d c = balanceKey rec.sender_did rec.amount.currency
          then wrapI128 (getBalance (confirm st sid now).2 d c +
            toI128 rec.amount.value)
          else getBalance (confirm st sid now).2 d c) -
          toI128 rec.amount.value)
      else
        (if balanceKey d c = balanceKey rec.sender_did rec.amount.currency
         then wrapI128 (getBalance (confirm st sid now).2 d c +
           toI128 rec.amount.value)
         else getBalance (confirm st sid now).2 d c) :=
      (rollback_confirmed_spec (confirm st sid now).2 sid
        { rec with status := .Confirmed } hfind2 rfl hrange).2.1
    rw [hbal2 d c, hbal1 d c]
    set b := getBalance st d c with hbdef
    set t := toI128 rec.amount.value with htdef
    by_cases h1 : balanceKey d c = balanceKey rec.sender_did
      rec.amount.currency
    · by_cases h2 : balanceKey d c = balanceKey rec.receiver_did
        rec.amount.currency
      · simp only [eq_true h1, eq_true h2, if_true]
        have e1 : wrapI128 (wrapI128 (b - t) + t) = wrapI128 b := by
          rw [wrapI128_wrap_add, show b - t + t = b from by ring]
        rw [e1]
        have e2 : wrapI128 (wrapI128 b + t) = wrapI128 (b + t) :=
          wrapI128_wrap_add b t
        rw [e2, wrapI128_wrap_sub, show b + t - t = b from by ring]
        exact wrapI128_eq_self b hlo hhi
      · simp only [eq_true h1, eq_false h2, if_true, if_false]
        rw [wrapI128_wrap_add, show b - t + t = b from by ring]
        exact wrapI128_eq_self b hlo hhi
    · by_cases h2 : balanceKey d c = balanceKey rec.receiver_did
        rec.amount.currency
      · simp only [eq_false h1, eq_true h2, if_true, if_false]
        rw [wrapI128_wrap_sub, show b + t - t = b from by ring]
        exact wrapI128_eq_self b hlo hhi
      · simp only [eq_false h1, eq_false h2, if_false]

set_option maxRecDepth 20000 in
/-- C2 witness: the conservation sum after a concrete
initiate/confirm/rollback history, and the confirm-then-rollback balance
restoration at a concrete state, through the theorem itself. -/
theorem internal_adapter_double_entry_witness :
    (([("did:gppn:key:alice" : String), "did:gppn:key:bob"].map fun d =>
      ledgerBalance (runAdapter emptyAdapter
        [.initiate 7 ⟨2000, .Fiat .USD⟩ "did:gppn:key:alice"
          "did:gppn:key:bob", .confirm 0 5, .rollback 0])
        d (.Fiat .USD)).sum = 0) ∧
    getBalance (rollback (confirm (initiate emptyAdapter 7
        ⟨2000, .Fiat .USD⟩ "did:gppn:key:alice" "did:gppn:key:bob").2 0 5).2
        0).2 "did:gppn:key:alice" (.Fiat .USD) =
      getBalance (initiate emptyAdapter 7 ⟨2000, .Fiat .USD⟩
        "did:gppn:key:alice" "did:gppn:key:bob").2 "did:gppn:key:alice"
        (.Fiat .USD) := by
  have h := internal_adapter_double_entry
  refine ⟨?_, ?_⟩
  · refine h.1 [.initiate 7 ⟨2000, .Fiat .USD⟩ "did:gppn:key:alice"
      "did:gppn:key:bob", .confirm 0 5, .rollback 0] (.Fiat .USD)
      ["did:gppn:key:alice", "did:gppn:key:bob"] (by decide) (by decide) ?_
    intro p a s r hmem
    simp only [List.mem_cons, List.not_mem_nil, or_false] at hmem
    rcases hmem with hq | hq | hq
    · injection hq with hq1 hq2 hq3 hq4
      subst hq2
      exact ⟨by decide, by decide⟩
    · exact AdapterOp.noConfusion hq
    · exact AdapterOp.noConfusion hq
  · exact h.2.2.2 (initiate emptyAdapter 7 ⟨2000, .Fiat .USD⟩
      "did:gppn:key:alice" "did:gppn:key:bob").2 0
      ⟨0, 7, ⟨2000, .Fiat .USD⟩, "did:gppn:key:alice",
        "did:gppn:key:bob", .Initiated⟩ 5 (by decide) (Or.inl rfl)
      (by decide) "did:gppn:key:alice" (.Fiat .USD) (by decide) (by decide)


/-! ## HTLC engine (gppn-settlement/src/htlc.rs) -/

/-- `HtlcStatus`. -/
inductive HtlcStatus where
  | Active | Claimed | Refunded | Expired
deriving DecidableEq, Repr

/-- `HtlcStatus` display strings (`impl Display`). -/
def HtlcStatus.display : HtlcStatus → String
  | .Active => "Active"
  | .Claimed => "Claimed"
  | .Refunded => "Refunded"
  | .Expired => "Expired"

/-- `Htlc` (`created_at` in epoch milliseconds). -/
structure Htlc where
  id : Nat
  hash_lock : List Nat
  time_lock : Nat
  amount : Amount
  sender_did : String
  receiver_did : String
  status : HtlcStatus
  created_at : Nat
deriving DecidableEq, Repr

/-- The state of an `HtlcManager`; `nextId` models the freshness of the
`Uuid::now_v7()` ids. -/
structure HtlcManager where
  htlcs : List (Nat × Htlc)
  nextId : Nat
deriving DecidableEq, Repr

/-- `HtlcManager::new()`. -/
def emptyHtlcManager : HtlcManager := ⟨[], 0⟩

/-- `HtlcManager::create_htlc`; `H` is BLAKE3, `nowMs` the wall clock. -/
def createHtlc (H : List Nat → List Nat) (m : HtlcManager)
    (preimage : List Nat) (timeLock : Nat) (amount : Amount)
    (sender receiver : String) (nowMs : Nat) : Htlc × HtlcManager :=
  let htlc : Htlc :=
    ⟨m.nextId, H preimage, timeLock, amount, sender, receiver, .Active, nowMs⟩
  (htlc, ⟨alistSet m.nextId htlc m.htlcs, m.nextId + 1⟩)

/-- `HtlcManager::claim`, branch for branch from the source: status must be
Active; at or after `time_lock` the HTLC is marked Expired and the Expired
error returned; a preimage whose hash differs from `hash_lock` gives
PreimageMismatch; otherwise the HTLC transitions to Claimed. -/
def claimHtlc (H : List Nat → List Nat) (m : HtlcManager) (htlcId : Nat)
    (preimage : List Nat) (nowMs : Nat) :
    Except SettlementError Htlc × HtlcManager :=
  match alistGet htlcId m.htlcs with
  | none => (.error (.NotFound htlcId), m)
  | some htlc =>
    if htlc.status ≠ .Active then
      (.error (.InvalidStateTransition
        ("cannot claim HTLC in status " ++ htlc.status.display)), m)
    else if htlc.time_lock ≤ nowMs then
      let expired := { htlc with status := HtlcStatus.Expired }
      (.error (.Expired htlcId),
       { m with htlcs := alistSet htlcId expired m.htlcs })
    else if H preimage ≠ htlc.hash_lock then
      (.error (.PreimageMismatch htlcId), m)
    else
      let claimed := { htlc with status := HtlcStatus.Claimed }
      (.ok claimed, { m with htlcs := alistSet htlcId claimed m.htlcs })

/-- `HtlcManager::refund`: requires status Active or Expired and
`now ≥ time_lock`; transitions to Refunded. -/
def refundHtlc (m : HtlcManager) (htlcId : Nat) (nowMs : Nat) :
    Except SettlementError Htlc × HtlcManager :=
  match alistGet htlcId m.htlcs with
  | none => (.error (.NotFound htlcId), m)
  | some htlc =>
    if htlc.status = .Active ∨ htlc.status = .Expired then
      if nowMs < htlc.time_lock then
        (.error (.HtlcNotExpired htlcId), m)
      else
        let refunded := { htlc with status := HtlcStatus.Refunded }
        (.ok refunded, { m with htlcs := alistSet htlcId refunded m.htlcs })
    else
      (.error (.InvalidStateTransition
        ("cannot refund HTLC in status " ++ htlc.status.display)), m)

/-- `HtlcManager::check_expiry`: sweep Active HTLCs past their time lock to
Expired in place; return the number swept. -/
def checkExpiry (m : HtlcManager) (nowMs : Nat) : Nat × HtlcManager :=
  let swept := m.htlcs.map fun p =>
    (p.1,
     if p.2.status = .Active ∧ p.2.time_lock ≤ nowMs then
       { p.2 with status := HtlcStatus.Expired }
     else p.2)
  ((m.htlcs.filter fun p =>
      decide (p.2.status = .Active ∧ p.2.time_lock ≤ nowMs)).length,
   { m with htlcs := swept })

/-- One operation against the HTLC manager. -/
inductive HtlcOp where
  | create (preimage : List Nat) (timeLock : Nat) (amount : Amount)
      (sender receiver : String) (nowMs : Nat)
  | claim (id : Nat) (preimage : List Nat) (nowMs : Nat)
  | refund (id : Nat) (nowMs : Nat)
  | sweep (nowMs : Nat)
deriving DecidableEq, Repr

/-- The manager state after one operation (results discarded). -/
def htlcStep (H : List Nat → List Nat) (m : HtlcManager) :
    HtlcOp → HtlcManager
  | .create pre tl a s r now => (createHtlc H m pre tl a s r now).2
  | .claim id pre now => (claimHtlc H m id pre now).2
  | .refund id now => (refundHtlc m id now).2
  | .sweep now => (checkExpiry m now).2

/-- The manager state after a finite sequence of operations. -/
def runHtlc (H : List Nat → List Nat) (m : HtlcManager) :
    List HtlcOp → HtlcManager
  | [] => m
  | op :: ops => runHtlc H (htlcStep H m op) ops

/-- The id-freshness invariant of the manager: every stored key is below
`nextId` (true of every state reachable from the empty manager, because
`Uuid::now_v7()` ids are fresh). -/
def htlcKeysBelow (m : HtlcManager) : Prop :=
  ∀ k h, alistGet k m.htlcs = some h → k < m.nextId

theorem alistGet_mapValues {β : Type} (f : Nat → β → β) (k : Nat)
    (l : List (Nat × β)) :
    alistGet k (l.map fun p => (p.1, f p.1 p.2)) =
      (alistGet k l).map (f k) := by
  induction l with
  | nil => simp [alistGet]
  | cons p rest ih =>
    by_cases h : p.1 = k
    · subst h
      simp [alistGet, ih]
    · simp [alistGet, h, ih]



theorem htlcKeysBelow_set (m : HtlcManager) (id : Nat) (h h' : Htlc)
    (hfind : alistGet id m.htlcs = some h) (hinv : htlcKeysBelow m) :
    htlcKeysBelow { m with htlcs := alistSet id h' m.htlcs } := by
  intro k hk hkfind
  by_cases hq : k = id
  · subst hq
    exact hinv k h hfind
  · rw [alistGet_set_other id k h' m.htlcs (fun hh => hq hh.symm)] at hkfind
    exact hinv k hk hkfind

theorem htlcKeysBelow_step (H : List Nat → List Nat) (m : HtlcManager)
    (op : HtlcOp) (hinv : htlcKeysBelow m) :
    htlcKeysBelow (htlcStep H m op) := by
  cases op with
  | create pre tl a s r now =>
    intro k hk hkfind
    show k < m.nextId + 1
    by_cases hq : k = m.nextId
    · omega
    · have : alistGet k (htlcStep H m (.create pre tl a s r now)).htlcs =
          alistGet k m.htlcs := by
        show alistGet k (alistSet m.nextId _ m.htlcs) = _
        exact alistGet_set_other m.nextId k _ m.htlcs
          (fun hh => hq hh.symm)
      rw [this] at hkfind
      have := hinv k hk hkfind
      omega
  | claim id0 pre now =>
    show htlcKeysBelow (claimHtlc H m id0 pre now).2
    cases hfind0 : alistGet id0 m.htlcs with
    | none => simp only [claimHtlc, hfind0]; exact hinv
    | some htlc0 =>
      by_cases h1 : htlc0.status ≠ .Active
      · simp only [claimHtlc, hfind0]
        rw [if_pos h1]
        exact hinv
      · by_cases h2 : htlc0.time_lock ≤ now
        · simp only [claimHtlc, hfind0]
          rw [if_neg h1, if_pos h2]
          exact htlcKeysBelow_set m id0 htlc0 _ hfind0 hinv
        · by_cases h3 : H pre ≠ htlc0.hash_lock
          · simp only [claimHtlc, hfind0]
            rw [if_neg h1, if_neg h2, if_pos h3]
            exact hinv
          · simp only [claimHtlc, hfind0]
            rw [if_neg h1, if_neg h2, if_neg h3]
            exact htlcKeysBelow_set m id0 htlc0 _ hfind0 hinv
  | refund id0 now =>
    show htlcKeysBelow (refundHtlc m id0 now).2
    cases hfind0 : alistGet id0 m.htlcs with
    | none => simp only [refundHtlc, hfind0]; exact hinv
    | some htlc0 =>
      by_cases h1 : htlc0.status = .Active ∨ htlc0.status = .Expired
      · by_cases h2 : now < htlc0.time_lock
        · simp only [refundHtlc, hfind0]
          rw [if_pos h1, if_pos h2]
          exact hinv
        · simp only [refundHtlc, hfind0]
          rw [if_pos h1, if_neg h2]
          exact htlcKeysBelow_set m id0 htlc0 _ hfind0 hinv
      · simp only [refundHtlc, hfind0]
        rw [if_neg h1]
        exact hinv
  | sweep now =>
    intro k hk hkfind
    show k < m.nextId
    have heq : alistGet k (htlcStep H m (.sweep now)).htlcs =
        (alistGet k m.htlcs).map (fun h' =>
          if h'.status = .Active ∧ h'.time_lock ≤ now then
            { h' with status := HtlcStatus.Expired }
          else h') := by
      show alistGet k (m.htlcs.map _) = _
      exact alistGet_mapValues (fun _ h' =>
        if h'.status = .Active ∧ h'.time_lock ≤ now then
          { h' with status := HtlcStatus.Expired }
        else h') k m.htlcs
    rw [heq] at hkfind
    cases hfind : alistGet k m.htlcs with
    | none => rw [hfind] at hkfind; cases hkfind
    | some h0 => exact hinv k h0 hfind

theorem htlcStep_preserves_terminal (H : List Nat → List Nat)
    (m : HtlcManager) (op : HtlcOp) (id : Nat) (h : Htlc)
    (hinv : htlcKeysBelow m) (hfind : alistGet id m.htlcs = some h)
    (hterm : h.status = .Claimed ∨ h.status = .Refunded) :
    alistGet id (htlcStep H m op).htlcs = some h := by
  have hna : h.status ≠ .Active := by
    rcases hterm with ht | ht <;> rw [ht] <;> decide
  have hne : h.status ≠ .Expired := by
    rcases hterm with ht | ht <;> rw [ht] <;> decide
  cases op with
  | create pre tl a s r now =>
    have hlt : id < m.nextId := hinv id h hfind
    show alistGet id (alistSet m.nextId _ m.htlcs) = some h
    rw [alistGet_set_other m.nextId id _ m.htlcs (by omega)]
    exact hfind
  | claim id0 pre now =>
    show alistGet id (claimHtlc H m id0 pre now).2.htlcs = some h
    cases hfind0 : alistGet id0 m.htlcs with
    | none => simp only [claimHtlc, hfind0]; exact hfind
    | some htlc0 =>
      by_cases hq : id0 = id
      · subst hq
        rw [hfind] at hfind0
        cases hfind0
        simp only [claimHtlc, hfind]
        rw [if_pos hna]
        exact hfind
      · by_cases h1 : htlc0.status ≠ .Active
        · simp only [claimHtlc, hfind0]
          rw [if_pos h1]
          exact hfind
        · by_cases h2 : htlc0.time_lock ≤ now
          · simp only [claimHtlc, hfind0]
            rw [if_neg h1, if_pos h2]
            show alistGet id (alistSet id0 _ m.htlcs) = some h
            rw [alistGet_set_other id0 id _ m.htlcs hq]
            exact hfind
          · by_cases h3 : H pre ≠ htlc0.hash_lock
            · simp only [claimHtlc, hfind0]
              rw [if_neg h1, if_neg h2, if_pos h3]
              exact hfind
            · simp only [claimHtlc, hfind0]
              rw [if_neg h1, if_neg h2, if_neg h3]
              show alistGet id (alistSet id0 _ m.htlcs) = some h
              rw [alistGet_set_other id0 id _ m.htlcs hq]
              exact hfind
  | refund id0 now =>
    show alistGet id (refundHtlc m id0 now).2.htlcs = some h
    cases hfind0 : alistGet id0 m.htlcs with
    | none => simp only [refundHtlc, hfind0]; exact hfind
    | some htlc0 =>
      by_cases hq : id0 = id
      · subst hq
        rw [hfind] at hfind0
        cases hfind0
        have h1 : ¬ (h.status = .Active ∨ h.status = .Expired) := by
          rintro (ha | ha)
          · exact hna ha
          · exact hne ha
        simp only [refundHtlc, hfind]
        rw [if_neg h1]
        exact hfind
      · by_cases h1 : htlc0.status = .Active ∨ htlc0.status = .Expired
        · by_cases h2 : now < htlc0.time_lock
          · simp only [refundHtlc, hfind0]
            rw [if_pos h1, if_pos h2]
            exact hfind
          · simp only [refundHtlc, hfind0]
            rw [if_pos h1, if_neg h2]
            show alistGet id (alistSet id0 _ m.htlcs) = some h
            rw [alistGet_set_other id0 id _ m.htlcs hq]
            exact hfind
        · simp only [refundHtlc, hfind0]
          rw [if_neg h1]
          exact hfind
  | sweep now =>
    have heq : alistGet id (htlcStep H m (.sweep now)).htlcs =
        (alistGet id m.htlcs).map (fun h' =>
          if h'.status = .Active ∧ h'.time_lock ≤ now then
            { h' with status := HtlcStatus.Expired }
          else h') := by
      show alistGet id (m.htlcs.map _) = _
      exact alistGet_mapValues (fun _ h' =>
        if h'.status = .Active ∧ h'.time_lock ≤ now then
          { h' with status := HtlcStatus.Expired }
        else h') id m.htlcs
    rw [heq, hfind]
    have hcond : ¬ (h.status = .Active ∧ h.time_lock ≤ now) := by
      rintro ⟨ha, -⟩
      exact hna ha
    simp [hcond]

theorem runHtlc_preserves_terminal (H : List Nat → List Nat)
    (ops : List HtlcOp) :
    ∀ (m : HtlcManager) (id : Nat) (h : Htlc), htlcKeysBelow m →
      alistGet id m.htlcs = some h →
      (h.status = .Claimed ∨ h.status = .Refunded) →
      alistGet id (runHtlc H m ops).htlcs = some h := by
  induction ops with
  | nil => intro m id h _ hfind _; exact hfind
  | cons op ops ih =>
    intro m id h hinv hfind hterm
    exact ih (htlcStep H m op) id h (htlcKeysBelow_step H m op hinv)
      (htlcStep_preserves_terminal H m op id h hinv hfind hterm) hterm

/-- C4: for every HTLC in the manager, claim requires status Active; a
claim at or after `time_lock` fails with Expired and marks the HTLC
Expired; a claim before `time_lock` with a preimage whose hash differs
from `hash_lock` fails with PreimageMismatch; a claim before `time_lock`
with the correct preimage transitions the HTLC to Claimed; refund requires
status Active or Expired and `now ≥ time_lock` and transitions to
Refunded; consequently a claimed HTLC stays Claimed and a refunded HTLC
stays Refunded under every later sequence of operations, so a claimed HTLC
can never be refunded and a refunded HTLC can never be claimed. -/
theorem htlc_claim_refund_exclusivity :
    (∀ (H : List Nat → List Nat) (m : HtlcManager) (id : Nat) (h : Htlc),
      alistGet id m.htlcs = some h →
      ((∀ pre now, h.status ≠ .Active →
        claimHtlc H m id pre now =
          (.error (.InvalidStateTransition
            ("cannot claim HTLC in status " ++ h.status.display)), m)) ∧
       (∀ pre now, h.status = .Active → h.time_lock ≤ now →
        (claimHtlc H m id pre now).1 = .error (.Expired id) ∧
        alistGet id (claimHtlc H m id pre now).2.htlcs =
          some { h with status := .Expired }) ∧
       (∀ pre now, h.status = .Active → now < h.time_lock →
          H pre ≠ h.hash_lock →
        claimHtlc H m id pre now = (.error (.PreimageMismatch id), m)) ∧
       (∀ pre now, h.status = .Active → now < h.time_lock →
          H pre = h.hash_lock →
        (claimHtlc H m id pre now).1 = .ok { h with status := .Claimed } ∧
        alistGet id (claimHtlc H m id pre now).2.htlcs =
          some { h with status := .Claimed }) ∧
       (∀ now, (h.status = .Active ∨ h.status = .Expired) →
          h.time_lock ≤ now →
        (refundHtlc m id now).1 = .ok { h with status := .Refunded } ∧
        alistGet id (refundHtlc m id now).2.htlcs =
          some { h with status := .Refunded }) ∧
       (∀ now, ¬ (h.status = .Active ∨ h.status = .Expired) →
        refundHtlc m id now =
          (.error (.InvalidStateTransition
            ("cannot refund HTLC in status " ++ h.status.display)), m)) ∧
       (∀ now, (h.status = .Active ∨ h.status = .Expired) →
          now < h.time_lock →
        refundHtlc m id now = (.error (.HtlcNotExpired id), m)))) ∧
    (∀ (H : List Nat → List Nat) (m : HtlcManager) (ops : List HtlcOp)
        (id : Nat) (h : Htlc),
      htlcKeysBelow m → alistGet id m.htlcs = some h →
      (h.status = .Claimed ∨ h.status = .Refunded) →
      alistGet id (runHtlc H m ops).htlcs = some h) := by
  constructor
  · intro H m id h hfind
    refine ⟨?_, ?_, ?_, ?_, ?_, ?_, ?_⟩
    · intro pre now hna
      simp only [claimHtlc, hfind]
      rw [if_pos hna]
    · intro pre now hA hle
      have h1 : ¬ h.status ≠ .Active := fun hn => hn hA
      simp only [claimHtlc, hfind]
      rw [if_neg h1, if_pos hle]
      exact ⟨rfl, alistGet_set_self _ _ _⟩
    · intro pre now hA hlt hmis
      have h1 : ¬ h.status ≠ .Active := fun hn => hn hA
      have h2 : ¬ h.time_lock ≤ now := by omega
      simp only [claimHtlc, hfind]
      rw [if_neg h1, if_neg h2, if_pos hmis]
    · intro pre now hA hlt hmatch
      have h1 : ¬ h.status ≠ .Active := fun hn => hn hA
      have h2 : ¬ h.time_lock ≤ now := by omega
      have h3 : ¬ H pre ≠ h.hash_lock := fun hn => hn hmatch
      simp only [claimHtlc, hfind]
      rw [if_neg h1, if_neg h2, if_neg h3]
      exact ⟨rfl, alistGet_set_self _ _ _⟩
    · intro now hAE hle
      have h2 : ¬ now < h.time_lock := by omega
      simp only [refundHtlc, hfind]
      rw [if_pos hAE, if_neg h2]
      exact ⟨rfl, alistGet_set_self _ _ _⟩
    · intro now hnae
      simp only [refundHtlc, hfind]
      rw [if_neg hnae]
    · intro now hAE hlt
      simp only [refundHtlc, hfind]
      rw [if_pos hAE, if_pos hlt]
  · intro H m ops id h hinv hfind hterm
    exact runHtlc_preserves_terminal H ops m id h hinv hfind hterm

/-- C4 witness: the theorem applied at a one-HTLC manager — the Expired
path, the wrong-preimage path, the successful claim, the refund-of-claimed
rejection, and the terminal persistence, at concrete inputs. The hash is
instantiated with the identity on byte lists. -/
theorem htlc_claim_refund_exclusivity_witness :
    (claimHtlc (fun l => l)
      ⟨[(0, ⟨0, [9], 100, ⟨5, .Fiat .USD⟩, "a", "b", .Active, 0⟩)], 1⟩
      0 [9] 100).1 = .error (.Expired 0) ∧
    claimHtlc (fun l => l)
      ⟨[(0, ⟨0, [9], 100, ⟨5, .Fiat .USD⟩, "a", "b", .Active, 0⟩)], 1⟩
      0 [8] 50 =
      (.error (.PreimageMismatch 0),
       ⟨[(0, ⟨0, [9], 100, ⟨5, .Fiat .USD⟩, "a", "b", .Active, 0⟩)], 1⟩) ∧
    (claimHtlc (fun l => l)
      ⟨[(0, ⟨0, [9], 100, ⟨5, .Fiat .USD⟩, "a", "b", .Active, 0⟩)], 1⟩
      0 [9] 50).1 =
      .ok ⟨0, [9], 100, ⟨5, .Fiat .USD⟩, "a", "b", .Claimed, 0⟩ ∧
    refundHtlc
      ⟨[(0, ⟨0, [9], 100, ⟨5, .Fiat .USD⟩, "a", "b", .Claimed, 0⟩)], 1⟩
      0 200 =
      (.error (.InvalidStateTransition "cannot refund HTLC in status Claimed"),
       ⟨[(0, ⟨0, [9], 100, ⟨5, .Fiat .USD⟩, "a", "b", .Claimed, 0⟩)], 1⟩) ∧
    alistGet 0 (runHtlc (fun l => l)
      ⟨[(0, ⟨0, [9], 100, ⟨5, .Fiat .USD⟩, "a", "b", .Claimed, 0⟩)], 1⟩
      [.refund 0 200, .claim 0 [9] 50, .sweep 300]).htlcs =
      some ⟨0, [9], 100, ⟨5, .Fiat .USD⟩, "a", "b", .Claimed, 0⟩ := by
  have h := htlc_claim_refund_exclusivity
  obtain ⟨hops, hruns⟩ := h
  have h1 := hops (fun l => l)
    ⟨[(0, ⟨0, [9], 100, ⟨5, .Fiat .USD⟩, "a", "b", .Active, 0⟩)], 1⟩
    0 ⟨0, [9], 100, ⟨5, .Fiat .USD⟩, "a", "b", .Active, 0⟩ rfl
  have h2 := hops (fun l => l)
    ⟨[(0, ⟨0, [9], 100, ⟨5, .Fiat .USD⟩, "a", "b", .Claimed, 0⟩)], 1⟩
    0 ⟨0, [9], 100, ⟨5, .Fiat .USD⟩, "a", "b", .Claimed, 0⟩ rfl
  refine ⟨(h1.2.1 [9] 100 rfl (by decide)).1, ?_, ?_, ?_, ?_⟩
  · exact h1.2.2.1 [8] 50 rfl (by decide) (by decide)
  · exact (h1.2.2.2.1 [9] 50 rfl (by decide) rfl).1
  · exact h2.2.2.2.2.2.1 200 (by rintro (hq | hq) <;> cases hq)
  · refine hruns (fun l => l) _ [.refund 0 200, .claim 0 [9] 50, .sweep 300]
      0 ⟨0, [9], 100, ⟨5, .Fiat .USD⟩, "a", "b", .Claimed, 0⟩
      ?_ rfl (Or.inl rfl)
    intro k hk hkf
    simp only [alistGet] at hkf
    by_cases hz : (0 : Nat) = k
    · show k < 1
      omega
    · rw [if_neg hz] at hkf
      cases hkf



/-- C6 counterexample: a claim on an Active HTLC at its time lock returns
the settlement error Expired, yet the HTLC store is changed by the failed
call (the HTLC is marked Expired in place), so the listed errors do not
all leave the stores observationally unchanged. -/
theorem claim_expired_error_commits_state :
    (claimHtlc (fun l => l)
      ⟨[(0, ⟨0, [9], 100, ⟨5, .Fiat .USD⟩, "a", "b", .Active, 0⟩)], 1⟩
      0 [9] 100).1 = .error (.Expired 0) ∧
    (claimHtlc (fun l => l)
      ⟨[(0, ⟨0, [9], 100, ⟨5, .Fiat .USD⟩, "a", "b", .Active, 0⟩)], 1⟩
      0 [9] 100).2 ≠
      ⟨[(0, ⟨0, [9], 100, ⟨5, .Fiat .USD⟩, "a", "b", .Active, 0⟩)], 1⟩ := by
  exact ⟨rfl, by decide⟩

/-- C6 (amended): when a settlement-kernel operation returns one of the
settlement errors, no partial state is committed — the settlement records,
balances, ledger and HTLC stores are observationally unchanged by the
failed call — with one exception: a claim failing with Expired changes
exactly the claimed HTLC's status to Expired (the lazy expiry of section
4.4) and nothing else. `initiate` never errors, and `get_status` is a pure
read. -/
theorem settlement_errors_no_partial_state :
    (∀ (st : AdapterState) (pmId : Nat) (a : Amount) (s r : String),
      ∃ sid, (initiate st pmId a s r).1 = .ok sid) ∧
    (∀ (st : AdapterState) (sid now : Nat) (e : SettlementError),
      (confirm st sid now).1 = .error e → (confirm st sid now).2 = st) ∧
    (∀ (st : AdapterState) (sid : Nat) (e : SettlementError),
      (rollback st sid).1 = .error e → (rollback st sid).2 = st) ∧
    (∀ (H : List Nat → List Nat) (m : HtlcManager) (id : Nat)
        (pre : List Nat) (now : Nat) (e : SettlementError),
      (claimHtlc H m id pre now).1 = .error e → e ≠ .Expired id →
      (claimHtlc H m id pre now).2 = m) ∧
    (∀ (H : List Nat → List Nat) (m : HtlcManager) (id : Nat)
        (pre : List Nat) (now : Nat),
      (claimHtlc H m id pre now).1 = .error (.Expired id) →
      ∃ h, alistGet id m.htlcs = some h ∧ h.status = .Active ∧
        h.time_lock ≤ now ∧
        (claimHtlc H m id pre now).2 =
          { m with
            htlcs := alistSet id { h with status := .Expired } m.htlcs }) ∧
    (∀ (m : HtlcManager) (id now : Nat) (e : SettlementError),
      (refundHtlc m id now).1 = .error e → (refundHtlc m id now).2 = m) := by
  refine ⟨?_, ?_, ?_, ?_, ?_, ?_⟩
  · intro st pmId a s r
    exact ⟨st.nextId, rfl⟩
  · intro st sid now e herr
    cases hfind : alistGet sid st.settlements with
    | none => simp only [confirm, hfind]
    | some rec =>
      by_cases hs : rec.status = .Initiated ∨ rec.status = .Pending
      · exfalso
        have hok : (confirm st sid now).1 = .ok
            { settlement_id := sid
              adapter_id := "sa-internal"
              status := .Confirmed
              amount := rec.amount
              sender_did := rec.sender_did
              receiver_did := rec.receiver_did
              confirmed_at := now
              tx_ref := some ("internal-" ++ toString rec.pm_id) } := by
          simp only [confirm, hfind]
          rw [if_pos hs]
        rw [hok] at herr
        cases herr
      · simp only [confirm, hfind]
        rw [if_neg hs]
  · intro st sid e herr
    cases hfind : alistGet sid st.settlements with
    | none => simp only [rollback, hfind]
    | some rec =>
      by_cases hs : rec.status = .Initiated ∨ rec.status = .Pending
      · exfalso
        simp only [rollback, hfind] at herr
        rw [if_pos hs] at herr
        cases herr
      · by_cases hc : rec.status = .Confirmed
        · exfalso
          simp only [rollback, hfind] at herr
          rw [if_neg hs, if_pos hc] at herr
          cases herr
        · simp only [rollback, hfind]
          rw [if_neg hs, if_neg hc]
  · intro H m id pre now e herr hne
    cases hfind : alistGet id m.htlcs with
    | none => simp only [claimHtlc, hfind]
    | some h =>
      by_cases h1 : h.status ≠ .Active
      · simp only [claimHtlc, hfind]
        rw [if_pos h1]
      · by_cases h2 : h.time_lock ≤ now
        · exfalso
          simp only [claimHtlc, hfind] at herr
          rw [if_neg h1, if_pos h2] at herr
          cases herr
          exact hne rfl
        · by_cases h3 : H pre ≠ h.hash_lock
          · simp only [claimHtlc, hfind]
            rw [if_neg h1, if_neg h2, if_pos h3]
          · exfalso
            simp only [claimHtlc, hfind] at herr
            rw [if_neg h1, if_neg h2, if_neg h3] at herr
            cases herr
  · intro H m id pre now herr
    cases hfind : alistGet id m.htlcs with
    | none =>
      exfalso
      simp only [claimHtlc, hfind] at herr
      cases herr
    | some h =>
      by_cases h1 : h.status ≠ .Active
      · exfalso
        simp only [claimHtlc, hfind] at herr
        rw [if_pos h1] at herr
        cases herr
      · by_cases h2 : h.time_lock ≤ now
        · refine ⟨h, rfl, not_not.mp h1, h2, ?_⟩
          simp only [claimHtlc, hfind]
          rw [if_neg h1, if_pos h2]
        · by_cases h3 : H pre ≠ h.hash_lock
          · exfalso
            simp only [claimHtlc, hfind] at herr
            rw [if_neg h1, if_neg h2, if_pos h3] at herr
            cases herr
          · exfalso
            simp only [claimHtlc, hfind] at herr
            rw [if_neg h1, if_neg h2, if_neg h3] at herr
            cases herr
  · intro m id now e herr
    cases hfind : alistGet id m.htlcs with
    | none => simp only [refundHtlc, hfind]
    | some h =>
      by_cases h1 : h.status = .Active ∨ h.status = .Expired
      · by_cases h2 : now < h.time_lock
        · simp only [refundHtlc, hfind]
          rw [if_pos h1, if_pos h2]
        · exfalso
          simp only [refundHtlc, hfind] at herr
          rw [if_pos h1, if_neg h2] at herr
          cases herr
      · simp only [refundHtlc, hfind]
        rw [if_neg h1]

/-- C6 witness: the amended theorem applied at concrete failing calls — a
confirm and a rollback of an unknown settlement, a claim and refund of an
unknown HTLC (all leaving the state untouched), and the Expired-claim
mutation at a concrete expired HTLC. -/
theorem settlement_errors_no_partial_state_witness :
    (confirm emptyAdapter 3 0).2 = emptyAdapter ∧
    (rollback emptyAdapter 3).2 = emptyAdapter ∧
    (claimHtlc (fun l => l) emptyHtlcManager 0 [1] 5).2 = emptyHtlcManager ∧
    (refundHtlc emptyHtlcManager 0 5).2 = emptyHtlcManager ∧
    (∃ h, alistGet 0
        (⟨[(0, ⟨0, [9], 100, ⟨5, .Fiat .USD⟩, "a", "b", .Active, 0⟩)], 1⟩ :
          HtlcManager).htlcs = some h ∧ h.status = .Active ∧
      h.time_lock ≤ 100 ∧
      (claimHtlc (fun l => l)
        ⟨[(0, ⟨0, [9], 100, ⟨5, .Fiat .USD⟩, "a", "b", .Active, 0⟩)], 1⟩
        0 [9] 100).2 =
        { (⟨[(0, ⟨0, [9], 100, ⟨5, .Fiat .USD⟩, "a", "b", .Active, 0⟩)], 1⟩ :
            HtlcManager) with
          htlcs := alistSet 0 { (⟨0, [9], 100, ⟨5, .Fiat .USD⟩, "a", "b",
            .Active, 0⟩ : Htlc) with status := .Expired }
            [(0, ⟨0, [9], 100, ⟨5, .Fiat .USD⟩, "a", "b", .Active, 0⟩)] }) := by
  have h := settlement_errors_no_partial_state
  refine ⟨h.2.1 emptyAdapter 3 0 (.NotFound 3) rfl,
         h.2.2.1 emptyAdapter 3 (.NotFound 3) rfl,
         h.2.2.2.1 (fun l => l) emptyHtlcManager 0 [1] 5 (.NotFound 0) rfl
           (by decide),
         h.2.2.2.2.2 emptyHtlcManager 0 5 (.NotFound 0) rfl,
         ?_⟩
  have hx := h.2.2.2.2.1 (fun l => l)
    ⟨[(0, ⟨0, [9], 100, ⟨5, .Fiat .USD⟩, "a", "b", .Active, 0⟩)], 1⟩
    0 [9] 100 rfl
  obtain ⟨hh, hfind, hA, hle, hst⟩ := hx
  have heq : hh = ⟨0, [9], 100, ⟨5, .Fiat .USD⟩, "a", "b", .Active, 0⟩ := by
    have h2 : some (⟨0, [9], 100, ⟨5, .Fiat .USD⟩, "a", "b", .Active, 0⟩ :
        Htlc) = some hh := hfind
    exact (Option.some.inj h2).symm
  subst heq
  exact ⟨_, hfind, hA, hle, hst⟩



/-! ## Credential verifier (veritas-credentials/src/verifier.rs) -/

/-- `CredentialError` (the variants of veritas-credentials/src/error.rs
that this development mentions; `verify_credential` never constructs any). -/
inductive CredentialError where
  | SchemaNotFound (s : String)
  | VerificationFailed (m : String)
  | UntrustedIssuer (s : String)
  | Expired
deriving DecidableEq, Repr

/-- `VerificationCheck`. -/
structure VerificationCheck where
  name : String
  passed : Bool
  detail : Option String
deriving DecidableEq, Repr

/-- `VerificationResult`. -/
structure VerificationResult where
  valid : Bool
  checks : List VerificationCheck
deriving DecidableEq, Repr

/-- The observable face of a `VerifiableCredential` as the verifier reads
it: `signed` is `is_signed()` (a proof is attached), `issuer` the issuer
DID, `expired` is `is_expired()` at the call's wall clock, and
`proofValid pk` the boolean outcome of `verify_proof(pk).is_ok()` — the
Ed25519 mechanics behind it are abstracted to that outcome. Public keys
are abstract (`Nat`). -/
structure CredentialView where
  signed : Bool
  issuer : String
  expired : Bool
  proofValid : Nat → Bool

/-- `CredentialVerifier::verify_credential`, check for check from the
source; `trusted` is the verifier's `trusted_issuers` map. -/
def verifyCredential (trusted : List (String × Nat))
    (cred : CredentialView) :
    Except CredentialError VerificationResult :=
  let signed := cred.signed
  let check1 : VerificationCheck :=
    ⟨"signature_present", signed,
     if signed then none else some "credential is not signed"⟩
  if !signed then
    .ok ⟨false, [check1]⟩
  else
    let issuerTrusted := (alistGet cred.issuer trusted).isSome
    let check2 : VerificationCheck :=
      ⟨"issuer_trusted", issuerTrusted,
       if issuerTrusted then none
       else some ("issuer " ++ cred.issuer ++ " is not trusted")⟩
    let sigValid :=
      if issuerTrusted then
        match alistGet cred.issuer trusted with
        | some pk => cred.proofValid pk
        | none => false
      else false
    let check3 : VerificationCheck :=
      ⟨"signature_valid", sigValid,
       if sigValid then none
       else some "signature verification failed or issuer unknown"⟩
    let notExpired := !cred.expired
    let check4 : VerificationCheck :=
      ⟨"not_expired", notExpired,
       if notExpired then none else some "credential has expired"⟩
    .ok ⟨signed && issuerTrusted && sigValid && notExpired,
         [check1, check2, check3, check4]⟩

/-- C8 counterexample: on an unsigned credential `verify_credential`
returns early with only the single check signature_present recorded — not
all four — so the claim that all four checks are always recorded is false
at this input. -/
theorem verify_unsigned_records_single_check :
    verifyCredential [] ⟨false, "did:veritas:key:issuer", false,
        fun _ => true⟩ =
      .ok ⟨false, [⟨"signature_present", false,
        some "credential is not signed"⟩]⟩ ∧
    ([(⟨"signature_present", false, some "credential is not signed"⟩ :
        VerificationCheck)].length = 1 ∧ (1 : Nat) ≠ 4) := by
  exact ⟨rfl, rfl, by decide⟩

theorem four_checks_valid_iff (t s n : Bool) (d2 d3 d4 : Option String) :
    (true && t && s && n) = true ↔
      ∀ c ∈ [(⟨"signature_present", true, none⟩ : VerificationCheck),
             ⟨"issuer_trusted", t, d2⟩, ⟨"signature_valid", s, d3⟩,
             ⟨"not_expired", n, d4⟩], c.passed = true := by
  cases t <;> cases s <;> cases n <;> simp

/-- C8 (amended): `verify_credential` never returns an error out of the
call; when the credential is signed, all four checks signature_present,
issuer_trusted, signature_valid and not_expired are recorded (in that
order) and the valid flag is true if and only if all recorded checks pass;
when the credential is unsigned, the call returns early with only the
failed signature_present check recorded and valid = false (the
valid-iff-all-recorded-checks-pass equivalence still holds). -/
theorem verify_credential_total_checks_valid :
    ∀ (trusted : List (String × Nat)) (cred : CredentialView),
      ∃ res, verifyCredential trusted cred = .ok res ∧
        (res.valid = true ↔ ∀ c ∈ res.checks, c.passed = true) ∧
        (cred.signed = true →
          res.checks.map (fun c => c.name) =
            ["signature_present", "issuer_trusted", "signature_valid",
             "not_expired"]) ∧
        (cred.signed = false →
          res.checks.map (fun c => c.name) = ["signature_present"] ∧
          res.valid = false) := by
  intro trusted cred
  obtain ⟨sgn, iss, expd, pv⟩ := cred
  cases sgn with
  | false =>
    refine ⟨⟨false, [⟨"signature_present", false,
      some "credential is not signed"⟩]⟩, rfl, ?_, ?_, ?_⟩
    · simp
    · intro h
      cases h
    · intro _
      exact ⟨rfl, rfl⟩
  | true =>
    refine ⟨⟨true && (alistGet iss trusted).isSome &&
      (if (alistGet iss trusted).isSome then
        match alistGet iss trusted with
        | some pk => pv pk
        | none => false
       else false) && !expd,
      [⟨"signature_present", true, none⟩,
       ⟨"issuer_trusted", (alistGet iss trusted).isSome,
        if (alistGet iss trusted).isSome then none
        else some ("issuer " ++ iss ++ " is not trusted")⟩,
       ⟨"signature_valid",
        (if (alistGet iss trusted).isSome then
          match alistGet iss trusted with
          | some pk => pv pk
          | none => false
         else false),
        if (if (alistGet iss trusted).isSome then
          match alistGet iss trusted with
          | some pk => pv pk
          | none => false
         else false) then none
        else some "signature verification failed or issuer unknown"⟩,
       ⟨"not_expired", !expd,
        if !expd then none else some "credential has expired"⟩]⟩,
      ?_, ?_, ?_, ?_⟩
    · rfl
    · exact four_checks_valid_iff _ _ _ _ _ _
    · intro _
      rfl
    · intro h
      cases h

/-- C8 witness: the amended theorem applied to a concrete signed
credential whose issuer is trusted under key 7 and whose proof validates
exactly under key 7. -/
theorem verify_credential_total_checks_valid_witness :
    ∃ res, verifyCredential [("did:veritas:key:issuer", 7)]
        ⟨true, "did:veritas:key:issuer", false, fun pk => pk == 7⟩ =
        .ok res ∧
      (res.valid = true ↔ ∀ c ∈ res.checks, c.passed = true) ∧
      ((true : Bool) = true →
        res.checks.map (fun c => c.name) =
          ["signature_present", "issuer_trusted", "signature_valid",
           "not_expired"]) ∧
      ((true : Bool) = false →
        res.checks.map (fun c => c.name) = ["signature_present"] ∧
        res.valid = false) :=
  verify_credential_total_checks_valid [("did:veritas:key:issuer", 7)]
    ⟨true, "did:veritas:key:issuer", false, fun pk => pk == 7⟩



/-! ## Commitments, Merkle roots, set membership
(veritas-crypto/src/hashing.rs, veritas-crypto/src/zkp.rs) -/

/-- `CryptoError` (veritas-crypto error taxonomy; the proof kernel only
constructs `ZkpError`). -/
inductive CryptoError where
  | InvalidKeyLength (n : Nat)
  | SignatureVerificationFailed
  | DecryptionError
  | KeyDerivationError (m : String)
  | ZkpError (m : String)
deriving DecidableEq, Repr

/-- The 32-byte zero hash returned for an empty Merkle input. -/
def zero32 : List Nat := List.replicate 32 0

/-- `hashing::create_commitment`: `H(value || nonce)`. -/
def createCommitment (H : List Nat → List Nat) (value nonce : List Nat) :
    List Nat :=
  H (value ++ nonce)

/-- One level-up pass of the Merkle loops (`chunks(2)`): hash each pair
`H(a || b)`; an odd final element is hashed with itself. -/
def merkleLevel (H : List Nat → List Nat) :
    List (List Nat) → List (List Nat)
  | [] => []
  | [a] => [H (a ++ a)]
  | a :: b :: rest => H (a ++ b) :: merkleLevel H rest

theorem merkleLevel_length (H : List Nat → List Nat) :
    ∀ l : List (List Nat), (merkleLevel H l).length = (l.length + 1) / 2
  | [] => by simp [merkleLevel]
  | [a] => by simp [merkleLevel]
  | a :: b :: rest => by
    have ih := merkleLevel_length H rest
    simp only [merkleLevel, List.length_cons, ih]
    omega

/-- `hashing::merkle_root`: empty input gives the zero hash, a single leaf
is its own root, otherwise hash level by level until one hash remains. -/
def merkleRoot (H : List Nat → List Nat) : List (List Nat) → List Nat
  | [] => zero32
  | [a] => a
  | a :: b :: rest => merkleRoot H (merkleLevel H (a :: b :: rest))
termination_by l => l.length
decreasing_by
  simp only [merkleLevel_length, List.length_cons]
  omega

/-- `Iterator::position` on a list: the index of the first element
satisfying the predicate. -/
def position {α : Type} (p : α → Bool) : List α → Option Nat
  | [] => none
  | a :: rest => if p a then some 0 else (position p rest).map (· + 1)

/-- `zkp::build_merkle_proof`: the sibling hashes and direction flags from
the leaf at `index` up to the root (a missing sibling pairs the element
with itself, direction true). -/
def buildMerkleProof (H : List Nat → List Nat)
    (leaves : List (List Nat)) (index : Nat) :
    List (List Nat) × List Bool :=
  if leaves.length ≤ 1 then ([], [])
  else
    let sib := if index % 2 = 0 then index + 1 else index - 1
    let step : List Nat × Bool :=
      if sib < leaves.length then (leaves.getD sib [], decide (index % 2 = 0))
      else (leaves.getD index [], true)
    let rest := buildMerkleProof H (merkleLevel H leaves) (index / 2)
    (step.1 :: rest.1, step.2 :: rest.2)
termination_by leaves.length
decreasing_by
  simp only [merkleLevel_length]
  omega

/-- `Commitment`. -/
structure Commitment where
  hash : List Nat
deriving DecidableEq, Repr

/-- `SetMembershipProof`. -/
structure SetMembershipProof where
  commitment : Commitment
  set_root : List Nat
  merkle_path : List (List Nat)
  path_directions : List Bool
  challenge : List Nat
  response : List Nat
deriving DecidableEq, Repr

/-- `Blake3ProofGenerator::prove_set_membership`; the random commitment
nonce of `Commitment::commit` is the `nonce` argument. -/
def proveSetMembership (H : List Nat → List Nat) (value : List Nat)
    (set : List (List Nat)) (nonce : List Nat) :
    Except CryptoError (SetMembershipProof × List Nat) :=
  match position (fun item => decide (item = value)) set with
  | none => .error (.ZkpError "value not in set")
  | some index =>
    let leafHashes := set.map H
    let proofPath := buildMerkleProof H leafHashes index
    let setRoot := merkleRoot H leafHashes
    let commitment := createCommitment H value nonce
    let challenge := H (commitment ++ setRoot)
    let response := H (value ++ nonce ++ challenge)
    .ok (⟨⟨commitment⟩, setRoot, proofPath.1, proofPath.2, challenge,
      response⟩, nonce)

/-- `Blake3ProofGenerator::verify_set_membership`: the supplied expected
root must equal the proof's set root, and the recomputed Fiat-Shamir
challenge must equal the stored one. -/
def verifySetMembership (H : List Nat → List Nat)
    (proof : SetMembershipProof) (expectedRoot : List Nat) :
    Except CryptoError Bool :=
  if proof.set_root ≠ expectedRoot then .ok false
  else
    let expectedChallenge := H (proof.commitment.hash ++ proof.set_root)
    if proof.challenge ≠ expectedChallenge then .ok false
    else .ok true

theorem position_some_of_mem {α : Type} [DecidableEq α] (v : α)
    (l : List α) (hm : v ∈ l) :
    ∃ i, position (fun item => decide (item = v)) l = some i := by
  induction l with
  | nil => cases hm
  | cons a l ih =>
    by_cases h : a = v
    · exact ⟨0, by simp [position, h]⟩
    · rcases List.mem_cons.mp hm with hv | hv
      · exact absurd hv.symm h
      · obtain ⟨i, hi⟩ := ih hv
        exact ⟨i + 1, by simp [position, h, hi]⟩

theorem position_none_of_not_mem {α : Type} [DecidableEq α] (v : α)
    (l : List α) (hm : v ∉ l) :
    position (fun item => decide (item = v)) l = none := by
  induction l with
  | nil => rfl
  | cons a l ih =>
    have ha : ¬ a = v := fun h => hm (h ▸ List.mem_cons_self a l)
    have hl : v ∉ l := fun h => hm (List.mem_cons_of_mem a h)
    simp [position, ha, ih hl]

/-- C9: for every value and set, membership makes `prove_set_membership`
succeed with a proof whose set root is the Merkle root of the BLAKE3 leaf
hashes of the set and which `verify_set_membership` accepts against that
root; non-membership makes generation fail; and verification returns false
whenever the supplied expected root differs from the proof's set root, or
the recomputed Fiat-Shamir challenge differs from the stored challenge. -/
theorem set_membership_soundness :
    ∀ (H : List Nat → List Nat) (v : List Nat) (S : List (List Nat))
      (nonce : List Nat),
      (v ∈ S →
        ∃ pr n, proveSetMembership H v S nonce = .ok (pr, n) ∧
          pr.set_root = merkleRoot H (S.map H) ∧
          verifySetMembership H pr (merkleRoot H (S.map H)) = .ok true) ∧
      (v ∉ S →
        proveSetMembership H v S nonce =
          .error (.ZkpError "value not in set")) ∧
      (∀ (pr : SetMembershipProof) (root : List Nat),
        pr.set_root ≠ root → verifySetMembership H pr root = .ok false) ∧
      (∀ (pr : SetMembershipProof) (root : List Nat),
        pr.set_root = root →
        pr.challenge ≠ H (pr.commitment.hash ++ pr.set_root) →
        verifySetMembership H pr root = .ok false) := by
  intro H v S nonce
  refine ⟨?_, ?_, ?_, ?_⟩
  · intro hm
    obtain ⟨i, hi⟩ := position_some_of_mem v S hm
    refine ⟨⟨⟨createCommitment H v nonce⟩, merkleRoot H (S.map H),
      (buildMerkleProof H (S.map H) i).1,
      (buildMerkleProof H (S.map H) i).2,
      H (createCommitment H v nonce ++ merkleRoot H (S.map H)),
      H (v ++ nonce ++
        H (createCommitment H v nonce ++ merkleRoot H (S.map H)))⟩,
      nonce, ?_, rfl, ?_⟩
    · simp only [proveSetMembership, hi]
    · simp only [verifySetMembership]
      rw [if_neg (fun h => h rfl), if_neg (fun h => h rfl)]
  · intro hm
    simp only [proveSetMembership, position_none_of_not_mem v S hm]
  · intro pr root hne
    simp only [verifySetMembership]
    rw [if_pos hne]
  · intro pr root heq hne
    simp only [verifySetMembership]
    rw [if_neg (fun h => h heq), if_pos hne]

/-- C9 witness: the theorem applied at the two-element byte set
{[66,82], [85,83]} with member [66,82] and non-member [88,88], under the
identity hash, plus the two verification rejections at a concrete proof. -/
theorem set_membership_soundness_witness :
    (∃ pr n, proveSetMembership (fun l => l) [66, 82]
        [[66, 82], [85, 83]] [1] = .ok (pr, n) ∧
      pr.set_root =
        merkleRoot (fun l => l) ([[66, 82], [85, 83]].map (fun l => l)) ∧
      verifySetMembership (fun l => l) pr
        (merkleRoot (fun l => l) ([[66, 82], [85, 83]].map (fun l => l))) =
        .ok true) ∧
    proveSetMembership (fun l => l) [88, 88] [[66, 82], [85, 83]] [1] =
      .error (.ZkpError "value not in set") ∧
    verifySetMembership (fun l => l)
      ⟨⟨[0]⟩, [1], [], [], [2], [3]⟩ [9] = .ok false ∧
    verifySetMembership (fun l => l)
      ⟨⟨[0]⟩, [1], [], [], [2], [3]⟩ [1] = .ok false := by
  have h1 := set_membership_soundness (fun l => l) [66, 82]
    [[66, 82], [85, 83]] [1]
  have h2 := set_membership_soundness (fun l => l) [88, 88]
    [[66, 82], [85, 83]] [1]
  refine ⟨h1.1 (by decide), h2.2.1 (by decide), ?_, ?_⟩
  · exact h1.2.2.1 ⟨⟨[0]⟩, [1], [], [], [2], [3]⟩ [9] (by decide)
  · exact h1.2.2.2 ⟨⟨[0]⟩, [1], [], [], [2], [3]⟩ [1] rfl (by decide)



/-! ## IEEE-754 binary64 rounding model

`RouteEntry::fee_for` computes `((amount as f64) * self.fee_rate).ceil()
as u128`. Every finite f64 is an exact rational, so f64 values are carried
as rationals and the two rounding steps (the `u128 → f64` conversion and
the multiplication) are modelled by `roundF64`, IEEE-754
round-to-nearest-ties-to-even with a 53-bit significand. The exponent
range (subnormals, overflow) is not modelled; the fee computation stays
far inside the normal range. -/

/-- Round to the nearest integer, ties to even. -/
def roundHalfEven (q : ℚ) : ℤ :=
  let n := ⌊q⌋
  let frac := q - (n : ℚ)
  if frac < 1 / 2 then n
  else if 1 / 2 < frac then n + 1
  else if n % 2 = 0 then n else n + 1

/-- Binary64 round-to-nearest-even on exact rationals: normalize the
magnitude to a 53-bit significand and round. -/
def roundF64 (q : ℚ) : ℚ :=
  if q = 0 then 0
  else
    let a := |q|
    let e : ℤ := Int.log 2 a - 52
    let s : ℚ := if q < 0 then -1 else 1
    s * ((roundHalfEven (a / 2 ^ e) : ℚ) * (2 : ℚ) ^ e)

/-- A rational exactly representable as a binary64 double (unbounded
exponent model): an integer significand of magnitude below `2^53` times a
power of two. -/
def F64Representable (q : ℚ) : Prop :=
  ∃ (m : ℤ) (e : ℤ), q = (m : ℚ) * 2 ^ e ∧ m.natAbs < 2 ^ 53

theorem roundHalfEven_intCast (n : ℤ) : roundHalfEven ((n : ℚ)) = n := by
  unfold roundHalfEven
  norm_num

theorem int_log2_eq (r : ℚ) (e : ℤ) (h0 : 0 < r) (h1 : (2 : ℚ) ^ e ≤ r)
    (h2 : r < (2 : ℚ) ^ (e + 1)) : Int.log 2 r = e := by
  have hb : 1 < 2 := by norm_num
  have hle : e ≤ Int.log 2 r := by
    rw [← Int.zpow_le_iff_le_log hb h0]
    push_cast
    exact h1
  have hlt : Int.log 2 r < e + 1 := by
    rw [← Int.lt_zpow_iff_log_lt hb h0]
    push_cast
    exact h2
  omega

theorem roundF64_pos_rep (n : ℕ) (e : ℤ) (hn : 0 < n)
    (hlt : n < 2 ^ 53) :
    roundF64 ((n : ℚ) * (2 : ℚ) ^ e) = (n : ℚ) * (2 : ℚ) ^ e := by
  have h2 : (0 : ℚ) < 2 := by norm_num
  have h2ne : (2 : ℚ) ≠ 0 := by norm_num
  have hq0 : (0 : ℚ) < (n : ℚ) * (2 : ℚ) ^ e := by positivity
  have hne : (n : ℚ) * (2 : ℚ) ^ e ≠ 0 := ne_of_gt hq0
  have hnne : n ≠ 0 := hn.ne'
  set k := Nat.log 2 n with hkdef
  have hk52 : k < 53 := Nat.log_lt_of_lt_pow hnne hlt
  have h2k : 2 ^ k ≤ n := Nat.pow_log_le_self 2 hnne
  have h2k1 : n < 2 ^ (k + 1) := Nat.lt_pow_succ_log_self (by norm_num) n
  have hlog : Int.log 2 ((n : ℚ) * (2 : ℚ) ^ e) = (k : ℤ) + e := by
    refine int_log2_eq _ _ hq0 ?_ ?_
    · rw [zpow_add₀ h2ne]
      have : (2 : ℚ) ^ (k : ℤ) ≤ (n : ℚ) := by
        rw [zpow_natCast]
        exact_mod_cast h2k
      exact mul_le_mul_of_nonneg_right this (le_of_lt (zpow_pos h2 e))
    · rw [show (k : ℤ) + e + 1 = ((k + 1 : ℕ) : ℤ) + e by push_cast; ring,
        zpow_add₀ h2ne]
      have : (n : ℚ) < (2 : ℚ) ^ ((k + 1 : ℕ) : ℤ) := by
        rw [zpow_natCast]
        exact_mod_cast h2k1
      exact mul_lt_mul_of_pos_right this (zpow_pos h2 e)
  rw [roundF64, if_neg hne]
  have habs : |(n : ℚ) * (2 : ℚ) ^ e| = (n : ℚ) * (2 : ℚ) ^ e :=
    abs_of_pos hq0
  have hsign : ¬ ((n : ℚ) * (2 : ℚ) ^ e < 0) := not_lt_of_ge (le_of_lt hq0)
  simp only [habs, hlog, if_neg hsign]
  have hkle : (k : ℤ) ≤ 52 := by omega
  have hdivint : (n : ℚ) * (2 : ℚ) ^ e / (2 : ℚ) ^ ((k : ℤ) + e - 52) =
      ((n * 2 ^ (52 - k) : ℕ) : ℚ) := by
    rw [div_eq_iff (by positivity : (2 : ℚ) ^ ((k : ℤ) + e - 52) ≠ 0)]
    push_cast
    rw [mul_assoc, ← zpow_natCast (2 : ℚ) (52 - k), ← zpow_add₀ h2ne]
    congr 1
    congr 1
    omega
  rw [hdivint]
  rw [show ((n * 2 ^ (52 - k) : ℕ) : ℚ) = (((n * 2 ^ (52 - k) : ℕ) : ℤ) : ℚ)
    by push_cast; ring]
  rw [roundHalfEven_intCast]
  push_cast
  rw [mul_assoc, ← zpow_natCast (2 : ℚ) (52 - k), ← zpow_add₀ h2ne]
  have hexp : ((52 - k : ℕ) : ℤ) + ((k : ℤ) + e - 52) = e := by omega
  rw [hexp, one_mul]

theorem roundF64_neg (q : ℚ) : roundF64 (-q) = -roundF64 q := by
  by_cases h0 : q = 0
  · subst h0
    simp [roundF64]
  · have hn0 : -q ≠ 0 := neg_ne_zero.mpr h0
    rw [roundF64, roundF64, if_neg hn0, if_neg h0, abs_neg]
    rcases lt_or_gt_of_ne h0 with hq | hq
    · have h1 : ¬ (-q < 0) := by linarith
      rw [if_neg h1, if_pos hq]
      ring
    · have h1 : -q < 0 := by linarith
      have h2 : ¬ (q < 0) := by linarith
      rw [if_pos h1, if_neg h2]
      ring



/-! ## Routing (gppn-routing: drt.rs, route.rs, scoring.rs, pathfinder.rs)

Scores are f64 in the source; they are modelled with exact rational
arithmetic here. A score only determines the order in which the search
expands nodes and returns routes, and the routing claims proved below are
order-independent, so score rounding is not modelled — unlike `fee_for`,
whose rounded value is itself the subject of a claim and goes through
`roundF64`. -/

/-- `RouteEntry` (drt.rs); the DID is carried as its URI string,
`last_updated` and `ttl` in milliseconds/seconds as integers. -/
structure RouteEntry where
  next_hop_peer_id : String
  destination_did : String
  supported_currencies : List Currency
  available_liquidity : Nat
  fee_rate : ℚ
  avg_latency_ms : Nat
  trust_score : ℚ
  last_updated : Nat
  ttl : Nat
  hop_count : Nat
deriving DecidableEq, Repr

/-- `RouteEntry::supports_currency`. -/
def RouteEntry.supportsCurrency (e : RouteEntry) (c : Currency) : Bool :=
  e.supported_currencies.contains c

/-- `RouteEntry::fee_for`:
`((amount as f64) * self.fee_rate).ceil() as u128` — the amount is rounded
to f64, multiplied by the stored f64 fee rate (rounding again), and the
ceiling cast back to an integer (the cast saturates below at 0; f64 `ceil`
itself is exact). -/
def RouteEntry.fee_for (e : RouteEntry) (amount : Nat) : Nat :=
  (⌈roundF64 (roundF64 (amount : ℚ) * e.fee_rate)⌉).toNat

/-- `ScoringWeights` (scoring.rs). -/
structure ScoringWeights where
  alpha : ℚ
  beta : ℚ
  gamma : ℚ
  delta : ℚ
deriving DecidableEq, Repr

/-- `ScoringWeights::default()`: 0.25 / 0.25 / 0.30 / 0.20. -/
def defaultWeights : ScoringWeights := ⟨1 / 4, 1 / 4, 3 / 10, 1 / 5⟩

/-- `ScoringInput` (scoring.rs). -/
structure ScoringInput where
  total_cost : Nat
  total_latency_ms : Nat
  trust_score : ℚ
  liquidity_score : ℚ
deriving DecidableEq, Repr

/-- The `value` field of `RouteScore::compute`:
`alpha/(1+cost) + beta/(1+latency) + gamma*trust + delta*liquidity`. -/
def scoreValue (input : ScoringInput) (w : ScoringWeights) : ℚ :=
  w.alpha * (1 / (1 + (input.total_cost : ℚ))) +
  w.beta * (1 / (1 + (input.total_latency_ms : ℚ))) +
  w.gamma * input.trust_score +
  w.delta * input.liquidity_score

/-- The exact rational value of `f64::MAX`: `(2^53 − 1) · 2^971`. -/
def f64Max : ℚ := (2 ^ 53 - 1) * 2 ^ 971

/-- The exact value of `f64::INFINITY` has no rational counterpart; the
only place it can flow into a result is `Route::min_trust_score` of a
zero-hop route, which `find_routes` never emits. Any stand-in above every
trust score is faithful for the sort order; `2 * f64Max` is used. -/
def qInfinity : ℚ := 2 * f64Max

/-- `f64::min` on the exact-rational model (kept explicit so concrete
runs evaluate). -/
def qmin (a b : ℚ) : ℚ := if a ≤ b then a else b

/-- `u128::min` (`std::cmp::min`). -/
def nmin (a b : Nat) : Nat := if a ≤ b then a else b

/-- `Route` (route.rs). -/
structure Route where
  hops : List RouteEntry
  currency : Currency
  amount : Nat
deriving DecidableEq, Repr

/-- `Route::total_cost`: the per-hop fees on the original amount,
summed (additive model). -/
def Route.total_cost (r : Route) : Nat :=
  (r.hops.map fun h => h.fee_for r.amount).sum

/-- `Route::estimated_latency`. -/
def Route.estimated_latency (r : Route) : Nat :=
  (r.hops.map fun h => h.avg_latency_ms).sum

/-- `Route::min_trust_score` (`fold(f64::INFINITY, f64::min)`). -/
def Route.min_trust_score (r : Route) : ℚ :=
  (r.hops.map fun h => h.trust_score).foldl qmin qInfinity

/-- `Route::min_liquidity` (`.min().unwrap_or(0)`). -/
def Route.min_liquidity (r : Route) : Nat :=
  ((r.hops.map fun h => h.available_liquidity).min?).getD 0

/-- `Route::liquidity_score`. -/
def Route.liquidity_score (r : Route) : ℚ :=
  if r.amount = 0 then 1
  else qmin ((r.min_liquidity : ℚ) / (r.amount : ℚ)) 1

/-- `Route::score` (the composite value). -/
def Route.score (r : Route) (w : ScoringWeights) : ℚ :=
  scoreValue ⟨r.total_cost, r.estimated_latency, r.min_trust_score,
    r.liquidity_score⟩ w

/-- `Route::all_hops_support_currency`. -/
def Route.all_hops_support_currency (r : Route) : Bool :=
  r.hops.all fun h => h.supportsCurrency r.currency

/-- `Route::all_hops_have_liquidity`. -/
def Route.all_hops_have_liquidity (r : Route) : Bool :=
  r.hops.all fun h => r.amount ≤ h.available_liquidity

/-- `RoutingError` (the variants this development mentions). -/
inductive RoutingError where
  | NoRouteFound (from_ to_ : String)
  | EmptyRoutingTable
  | InvalidRouteEntry (reason : String)
  | InvalidScoringWeights
deriving DecidableEq, Repr

/-- The snapshot of a `DistributedRoutingTable` that `find_routes`
consumes: the value list of `all_entries()` (the table itself is keyed by
`(destination_did_uri, next_hop_peer_id)`; the pathfinder only reads the
entry list and emptiness). -/
structure DistributedRoutingTable where
  entries : List RouteEntry
deriving DecidableEq, Repr

/-- `DistributedRoutingTable::is_empty`. -/
def DistributedRoutingTable.isEmptyTable (drt : DistributedRoutingTable) :
    Bool :=
  drt.entries.isEmpty

/-- Split a character list at every occurrence of `c` (the embedding of
Rust's `str::split(':')`). -/
def splitChar (c : Char) : List Char → List (List Char)
  | [] => [[]]
  | a :: rest =>
    if a = c then [] :: splitChar c rest
    else
      match splitChar c rest with
      | [] => [[a]]
      | g :: gs => (a :: g) :: gs

/-- `split(':')` on a string. -/
def splitColon (s : String) : List String :=
  (splitChar ':' s.data).map fun l => String.mk l

/-- `Did::identifier`: the fourth `':'`-separated component onward
(`splitn(4, ':')` keeps any further colons in the last fragment). -/
def didIdentifier (uri : String) : Option String :=
  let parts := splitColon uri
  if parts.length < 4 then none
  else some (String.intercalate ":" (parts.drop 3))

/-- `Did::method`: the third `':'`-separated component. -/
def didMethod (uri : String) : Option String :=
  (splitColon uri).get? 2

/-- `Did::from_parts`. -/
def didFromParts (method idf : String) : String :=
  "did:gppn:" ++ method ++ ":" ++ idf

/-- `PathFinderConfig`. -/
structure PathFinderConfig where
  max_hops : Nat
  min_trust_score : ℚ
  weights : ScoringWeights
deriving DecidableEq, Repr

/-- The internal `SearchNode` of the priority queue. -/
structure SearchNode where
  node_id : String
  score : ℚ
  path : List RouteEntry
  total_cost : Nat
  total_latency_ms : Nat
  min_trust : ℚ
  min_liquidity : Nat
deriving DecidableEq, Repr

/-- `BinaryHeap::pop`: extract a maximal-score node (ties broken
arbitrarily in the source's NaN-safe ordering; this model takes the first
maximal element). -/
def popMax : List SearchNode → Option (SearchNode × List SearchNode)
  | [] => none
  | n :: rest =>
    match popMax rest with
    | none => some (n, [])
    | some (m, others) =>
      if n.score < m.score then some (m, n :: others) else some (n, rest)

/-- Append a value to the list at key `k`
(`map.entry(k).or_default().push(v)`). -/
def alistAppend {α β : Type} [DecidableEq α] (k : α) (v : β) :
    List (α × List β) → List (α × List β)
  | [] => [(k, [v])]
  | (k', vs) :: rest =>
    if k' = k then (k, vs ++ [v]) :: rest
    else (k', vs) :: alistAppend k v rest

/-- The currency-support and liquidity filter at the top of
`build_adjacency`. -/
def adjacencyEntries (drt : DistributedRoutingTable) (amount : Nat)
    (currency : Currency) : List RouteEntry :=
  drt.entries.filter fun e =>
    e.supportsCurrency currency && amount ≤ e.available_liquidity

/-- The peer-id → DID-URI map of `build_adjacency`: destination
identifiers first, then synthetic DIDs (under the method of the first
entry, falling back to `"key"`) for peer ids appearing only as next
hops. -/
def peerDidMap (entries : List RouteEntry) : List (String × String) :=
  let peerMap1 := entries.foldl (fun m e =>
    match didIdentifier e.destination_did with
    | some idf => alistSet idf e.destination_did m
    | none => m) ([] : List (String × String))
  let method := ((entries.head?.map fun e => e.destination_did).bind
    didMethod).getD "key"
  entries.foldl (fun m e =>
    if (alistGet e.next_hop_peer_id m).isSome then m
    else alistSet e.next_hop_peer_id
      (didFromParts method e.next_hop_peer_id) m) peerMap1

/-- `PathFinder::build_adjacency`: filter entries by currency support and
liquidity, build the peer-id → DID-URI map, and group the filtered
entries into edges `source_uri → (entry, target_uri)`. -/
def buildAdjacency (drt : DistributedRoutingTable) (amount : Nat)
    (currency : Currency) : List (String × List (RouteEntry × String)) :=
  let entries := adjacencyEntries drt amount currency
  let peerMap := peerDidMap entries
  entries.foldl (fun adj e =>
    alistAppend
      ((alistGet e.next_hop_peer_id peerMap).getD e.next_hop_peer_id)
      (e, e.destination_did) adj) []

/-- One candidate push of the neighbour-expansion loop: `none` when the
edge is skipped (loop detected, the source revisited, or the trust
threshold violated), otherwise the successor `SearchNode`. -/
def expandEdge (cfg : PathFinderConfig) (sourceUri : String) (amount : Nat)
    (current : SearchNode) (edge : RouteEntry × String) :
    Option SearchNode :=
  let entry := edge.1
  let nextNode := edge.2
  let alreadyInPath := current.path.any fun h =>
    h.destination_did = nextNode
  if alreadyInPath || nextNode = sourceUri then none
  else
    let newMinTrust := qmin current.min_trust entry.trust_score
    if newMinTrust < cfg.min_trust_score then none
    else
      let hopCost := entry.fee_for amount
      let newTotalCost := current.total_cost + hopCost
      let newTotalLatency := current.total_latency_ms + entry.avg_latency_ms
      let newMinLiquidity := nmin current.min_liquidity
        entry.available_liquidity
      let liquidityScore : ℚ :=
        if amount = 0 then 1
        else qmin ((newMinLiquidity : ℚ) / (amount : ℚ)) 1
      let score := scoreValue
        ⟨newTotalCost, newTotalLatency, newMinTrust, liquidityScore⟩
        cfg.weights
      some ⟨nextNode, score, current.path ++ [entry], newTotalCost,
        newTotalLatency, newMinTrust, newMinLiquidity⟩

/-- The `while let Some(current) = heap.pop()` loop of `find_routes`.
The Rust loop terminates because pushes are bounded; the `fuel` argument
is the embedding of that bound (all theorems hold for every fuel). -/
def searchLoop (cfg : PathFinderConfig)
    (adj : List (String × List (RouteEntry × String)))
    (sourceUri destUri : String) (amount : Nat) (currency : Currency)
    (maxRoutes : Nat) :
    Nat → List SearchNode → (String → Nat) → List Route → List Route
  | 0, _, _, found => found
  | fuel + 1, heap, visits, found =>
    match popMax heap with
    | none => found
    | some (current, heap') =>
      if maxRoutes ≤ found.length then found
      else
        let count := visits current.node_id + 1
        let visits' := fun s =>
          if s = current.node_id then count else visits s
        if maxRoutes < count then
          searchLoop cfg adj sourceUri destUri amount currency maxRoutes
            fuel heap' visits' found
        else if current.node_id = destUri then
          let found' :=
            if current.path.isEmpty then found
            else found ++ [Route.mk current.path currency amount]
          searchLoop cfg adj sourceUri destUri amount currency maxRoutes
            fuel heap' visits' found'
        else if cfg.max_hops ≤ current.path.length then
          searchLoop cfg adj sourceUri destUri amount currency maxRoutes
            fuel heap' visits' found
        else
          let pushes := ((alistGet current.node_id adj).getD []).filterMap
            (expandEdge cfg sourceUri amount current)
          searchLoop cfg adj sourceUri destUri amount currency maxRoutes
            fuel (pushes ++ heap') visits' found

/-- Stable insertion for the descending sort of found routes. -/
def insertByScoreDesc (w : ScoringWeights) (r : Route) :
    List Route → List Route
  | [] => [r]
  | x :: xs =>
    if x.score w < r.score w then r :: x :: xs
    else x :: insertByScoreDesc w r xs

/-- `found_routes.sort_by` score descending. -/
def sortByScoreDesc (w : ScoringWeights) : List Route → List Route
  | [] => []
  | r :: rs => insertByScoreDesc w r (sortByScoreDesc w rs)

/-- `PathFinder::find_routes`. -/
def findRoutes (cfg : PathFinderConfig) (drt : DistributedRoutingTable)
    (fromUri toUri : String) (amount : Nat) (currency : Currency)
    (maxRoutes : Nat) (fuel : Nat) : Except RoutingError (List Route) :=
  if drt.isEmptyTable then .error .EmptyRoutingTable
  else
    let adjacency := buildAdjacency drt amount currency
    let start : SearchNode :=
      ⟨fromUri, f64Max, [], 0, 0, 1, 2 ^ 128 - 1⟩
    let found := searchLoop cfg adjacency fromUri toUri amount currency
      maxRoutes fuel [start] (fun _ => 0) []
    if found.isEmpty then .error (.NoRouteFound fromUri toUri)
    else .ok (sortByScoreDesc cfg.weights found)



theorem roundF64_eq_self (q : ℚ) (h : F64Representable q) :
    roundF64 q = q := by
  obtain ⟨m, e, rfl, hm⟩ := h
  rcases lt_trichotomy m 0 with hneg | h0 | hpos
  · have habs : ((m.natAbs : ℕ) : ℚ) = -(m : ℚ) := by
      rw [Int.cast_natAbs, abs_of_neg hneg]
      push_cast
      ring
    have hrw : (m : ℚ) * 2 ^ e = -(((m.natAbs : ℕ) : ℚ) * 2 ^ e) := by
      rw [habs]; ring
    rw [hrw, roundF64_neg,
      roundF64_pos_rep m.natAbs e (Int.natAbs_pos.mpr hneg.ne) hm, ← hrw]
  · subst h0
    simp [roundF64]
  · have habs : ((m.natAbs : ℕ) : ℚ) = (m : ℚ) := by
      rw [Int.cast_natAbs, abs_of_pos hpos]
    rw [← habs, roundF64_pos_rep m.natAbs e (Int.natAbs_pos.mpr hpos.ne') hm]

/-- `2^53 + 1` is the first integer a binary64 cannot hold: the
`u128 → f64` conversion rounds it down to `2^53` (ties to even). -/
theorem roundF64_two_pow53_succ : roundF64 ((2 : ℚ) ^ 53 + 1) = 2 ^ 53 := by
  have hpos : (0 : ℚ) < (2 : ℚ) ^ 53 + 1 := by positivity
  have hne : ((2 : ℚ) ^ 53 + 1) ≠ 0 := ne_of_gt hpos
  have hlog : Int.log 2 ((2 : ℚ) ^ 53 + 1) = 53 := by
    refine int_log2_eq _ 53 hpos ?_ ?_
    · rw [show (53 : ℤ) = ((53 : ℕ) : ℤ) by norm_num, zpow_natCast]
      norm_num
    · rw [show (53 : ℤ) + 1 = ((54 : ℕ) : ℤ) by norm_num, zpow_natCast]
      norm_num
  have hfloor : ⌊(2 : ℚ) ^ 52 + 1 / 2⌋ = 2 ^ 52 := by
    rw [Int.floor_eq_iff]
    constructor
    · push_cast; norm_num
    · push_cast; norm_num
  have hrhe : roundHalfEven ((2 : ℚ) ^ 52 + 1 / 2) = 2 ^ 52 := by
    unfold roundHalfEven
    rw [hfloor]
    norm_num
  rw [roundF64, if_neg hne]
  have hnneg : ¬ ((2 : ℚ) ^ 53 + 1 < 0) := not_lt.mpr hpos.le
  simp only [abs_of_pos hpos, if_neg hnneg, one_mul]
  rw [hlog, show (53 : ℤ) - 52 = 1 by norm_num]
  have harg : ((2 : ℚ) ^ 53 + 1) / 2 ^ (1 : ℤ) = (2 : ℚ) ^ 52 + 1 / 2 := by
    rw [show ((1 : ℤ)) = ((1 : ℕ) : ℤ) by norm_num, zpow_natCast]
    ring
  rw [harg, hrhe]
  rw [show ((1 : ℤ)) = ((1 : ℕ) : ℤ) by norm_num, zpow_natCast]
  push_cast
  ring

theorem roundF64_two_pow53 : roundF64 ((2 : ℚ) ^ 53) = 2 ^ 53 := by
  have : F64Representable ((2 : ℚ) ^ 53) := by
    refine ⟨1, 53, ?_, by norm_num⟩
    rw [show (53 : ℤ) = ((53 : ℕ) : ℤ) by norm_num, zpow_natCast]
    norm_num
  exact roundF64_eq_self _ this

/-- C7, counterexample. `fee_for` on the amount `2^53 + 1` with fee rate
`1.0` returns `2^53`, while the exact ceiling of the product is
`2^53 + 1`: the `amount as f64` conversion already rounds the amount, so
the fee is not the mathematical `ceil(amount × fee_rate)`. -/
theorem fee_for_rounds_at_2_pow_53_plus_1 :
    (RouteEntry.mk "peer-1" "did:gppn:key:dest"
        [Currency.Crypto CryptoCurrency.BTC] (2 ^ 60) 1 10 (9 / 10) 0 60
        1).fee_for (2 ^ 53 + 1) = 2 ^ 53 ∧
    (⌈(((2 ^ 53 + 1 : ℕ) : ℚ)) * (1 : ℚ)⌉).toNat = 2 ^ 53 + 1 := by
  constructor
  · show (⌈roundF64 (roundF64 (((2 ^ 53 + 1 : ℕ) : ℚ)) * 1)⌉).toNat =
      2 ^ 53
    rw [mul_one,
      show (((2 ^ 53 + 1 : ℕ) : ℚ)) = (2 : ℚ) ^ 53 + 1 by push_cast; ring,
      roundF64_two_pow53_succ, roundF64_two_pow53,
      show ((2 : ℚ) ^ 53) = ((2 ^ 53 : ℤ) : ℚ) by push_cast; ring,
      Int.ceil_intCast]
    rfl
  · rw [mul_one, Int.ceil_natCast]
    rfl

/-- C7. Amended: when the amount and the product `amount × fee_rate` are
both exactly representable as binary64 doubles (and the fee rate is
non-negative, as the entry validation requires), `fee_for` equals the
mathematical `ceil(amount × fee_rate)` — the rounding steps are lossless —
and a route's total cost is the sum of the per-hop fees, each computed on
the original amount. At amounts past `2^53` the f64 conversion itself
rounds and the equation fails (see the counterexample). -/
theorem fee_for_exact_ceiling_when_representable (e : RouteEntry)
    (amount : Nat) (hA : F64Representable ((amount : ℚ)))
    (hP : F64Representable ((amount : ℚ) * e.fee_rate))
    (hr : 0 ≤ e.fee_rate) :
    ((e.fee_for amount : ℤ) = ⌈(amount : ℚ) * e.fee_rate⌉) ∧
    ∀ (hops : List RouteEntry) (c : Currency) (amt : Nat),
      (Route.mk hops c amt).total_cost =
        (hops.map fun h => h.fee_for amt).sum := by
  refine ⟨?_, fun hops c amt => rfl⟩
  show ((⌈roundF64 (roundF64 ((amount : ℚ)) * e.fee_rate)⌉).toNat : ℤ) = _
  rw [roundF64_eq_self _ hA, roundF64_eq_self _ hP]
  have hge : (0 : ℤ) ≤ ⌈(amount : ℚ) * e.fee_rate⌉ :=
    Int.ceil_nonneg (mul_nonneg (Nat.cast_nonneg amount) hr)
  exact Int.toNat_of_nonneg hge

/-- A concrete entry with fee rate `1/2` for the C7 witness. -/
def feeEntryW : RouteEntry :=
  ⟨"peer-1", "did:gppn:key:w", [Currency.Fiat FiatCurrency.USD], 1000,
    1 / 2, 10, 9 / 10, 0, 300, 1⟩

/-- C7 witness: amount `10`, fee rate `1/2`; both `10` and `5` are
representable, and the fee is `⌈5⌉ = 5`. -/
theorem fee_for_exact_ceiling_witness :
    (((feeEntryW.fee_for 10 : Nat) : ℤ) =
      ⌈((10 : ℕ) : ℚ) * feeEntryW.fee_rate⌉) ∧
    ∀ (hops : List RouteEntry) (c : Currency) (amt : Nat),
      (Route.mk hops c amt).total_cost =
        (hops.map fun h => h.fee_for amt).sum :=
  fee_for_exact_ceiling_when_representable feeEntryW 10
    ⟨10, 0, by norm_num, by norm_num⟩
    ⟨5, 0, by norm_num [feeEntryW], by norm_num⟩
    (by norm_num [feeEntryW])



theorem mem_alistAppend_getD {α β : Type} [DecidableEq α] (k k' : α)
    (v : β) :
    ∀ (l : List (α × List β)) (p : β),
      p ∈ ((alistGet k' (alistAppend k v l)).getD []) →
      p ∈ ((alistGet k' l).getD []) ∨ p = v := by
  intro l
  induction l with
  | nil =>
    intro p hp
    by_cases hk : k = k'
    · simp only [alistAppend, alistGet, if_pos hk, Option.getD_some,
        List.mem_singleton] at hp
      exact Or.inr hp
    · simp only [alistAppend, alistGet, if_neg hk, Option.getD_none,
        List.not_mem_nil] at hp
  | cons hd t ih =>
    obtain ⟨k0, vs⟩ := hd
    intro p hp
    by_cases hk0 : k0 = k
    · simp only [alistAppend, if_pos hk0] at hp
      by_cases hk' : k = k'
      · simp only [alistGet, if_pos hk', Option.getD_some,
          List.mem_append, List.mem_singleton] at hp
        simp only [alistGet, hk0, if_pos hk', Option.getD_some]
        exact hp
      · simp only [alistGet, if_neg hk', Option.getD_none] at hp
        simp only [alistGet, hk0, if_neg hk']
        exact Or.inl hp
    · simp only [alistAppend, if_neg hk0] at hp
      by_cases hk'0 : k0 = k'
      · simp only [alistGet, if_pos hk'0, Option.getD_some] at hp
        simp only [alistGet, if_pos hk'0, Option.getD_some]
        exact Or.inl hp
      · simp only [alistGet, if_neg hk'0] at hp
        simp only [alistGet, if_neg hk'0]
        exact ih p hp

theorem mem_foldl_alistAppend {α β : Type} [DecidableEq α]
    (f : RouteEntry → α) (g : RouteEntry → β) :
    ∀ (l : List RouteEntry) (acc : List (α × List β)) (k : α) (p : β),
      p ∈ ((alistGet k
        (l.foldl (fun adj e => alistAppend (f e) (g e) adj) acc)).getD []) →
      p ∈ ((alistGet k acc).getD []) ∨ ∃ e ∈ l, p = g e := by
  intro l
  induction l with
  | nil => intro acc k p hp; exact Or.inl hp
  | cons a t ih =>
    intro acc k p hp
    rw [List.foldl_cons] at hp
    rcases ih _ k p hp with h | ⟨e, he, hpe⟩
    · rcases mem_alistAppend_getD (f a) k (g a) acc p h with h2 | h2
      · exact Or.inl h2
      · exact Or.inr ⟨a, List.mem_cons_self a t, h2⟩
    · exact Or.inr ⟨e, List.mem_cons_of_mem a he, hpe⟩

/-- Every edge stored in a `build_adjacency` bucket comes from a filtered
entry (so it supports the currency and covers the amount) and its target
is that entry's destination DID. -/
theorem buildAdjacency_mem (drt : DistributedRoutingTable) (amount : Nat)
    (currency : Currency) (k : String) (p : RouteEntry × String)
    (hp : p ∈ ((alistGet k (buildAdjacency drt amount currency)).getD [])) :
    (p.1.supportsCurrency currency = true ∧
      amount ≤ p.1.available_liquidity) ∧ p.2 = p.1.destination_did := by
  have h := mem_foldl_alistAppend
    (fun e => (alistGet e.next_hop_peer_id
      (peerDidMap (adjacencyEntries drt amount currency))).getD
      e.next_hop_peer_id)
    (fun e => (e, e.destination_did))
    (adjacencyEntries drt amount currency) [] k p hp
  rcases h with h | ⟨e, he, hpe⟩
  · simp only [alistGet, Option.getD_none, List.not_mem_nil] at h
  · subst hpe
    have hf := List.mem_filter.mp he
    have hprop := hf.2
    simp only [Bool.and_eq_true, decide_eq_true_eq] at hprop
    exact ⟨hprop, rfl⟩

theorem popMax_mem : ∀ {l : List SearchNode} {n : SearchNode}
    {rest : List SearchNode}, popMax l = some (n, rest) →
    n ∈ l ∧ ∀ x ∈ rest, x ∈ l := by
  intro l
  induction l with
  | nil => intro n rest h; simp [popMax] at h
  | cons a t ih =>
    intro n rest h
    cases hm : popMax t with
    | none =>
      simp only [popMax, hm, Option.some.injEq, Prod.mk.injEq] at h
      obtain ⟨h1, h2⟩ := h
      subst h1
      subst h2
      exact ⟨List.mem_cons_self a t, by intro x hx; simp at hx⟩
    | some pr =>
      obtain ⟨m, others⟩ := pr
      simp only [popMax, hm] at h
      by_cases hs : a.score < m.score
      · rw [if_pos hs] at h
        simp only [Option.some.injEq, Prod.mk.injEq] at h
        obtain ⟨h1, h2⟩ := h
        subst h1
        subst h2
        obtain ⟨hm1, hm2⟩ := ih hm
        refine ⟨List.mem_cons_of_mem a hm1, ?_⟩
        intro x hx
        rcases List.mem_cons.mp hx with h3 | h3
        · subst h3; exact List.mem_cons_self x t
        · exact List.mem_cons_of_mem a (hm2 x h3)
      · rw [if_neg hs] at h
        simp only [Option.some.injEq, Prod.mk.injEq] at h
        obtain ⟨h1, h2⟩ := h
        subst h1
        subst h2
        exact ⟨List.mem_cons_self a t, fun x hx => List.mem_cons_of_mem a hx⟩

theorem mem_insertByScoreDesc (w : ScoringWeights) (r x : Route) :
    ∀ (l : List Route), x ∈ insertByScoreDesc w r l → x = r ∨ x ∈ l := by
  intro l
  induction l with
  | nil =>
    intro hx
    simp only [insertByScoreDesc, List.mem_singleton] at hx
    exact Or.inl hx
  | cons a t ih =>
    intro hx
    simp only [insertByScoreDesc] at hx
    by_cases hs : a.score w < r.score w
    · rw [if_pos hs] at hx
      rcases List.mem_cons.mp hx with h | h
      · exact Or.inl h
      · exact Or.inr h
    · rw [if_neg hs] at hx
      rcases List.mem_cons.mp hx with h | h
      · exact Or.inr (h ▸ List.mem_cons_self a t)
      · rcases ih h with h2 | h2
        · exact Or.inl h2
        · exact Or.inr (List.mem_cons_of_mem a h2)

theorem mem_sortByScoreDesc (w : ScoringWeights) (x : Route) :
    ∀ (l : List Route), x ∈ sortByScoreDesc w l → x ∈ l := by
  intro l
  induction l with
  | nil => intro hx; simp [sortByScoreDesc] at hx
  | cons a t ih =>
    intro hx
    simp only [sortByScoreDesc] at hx
    rcases mem_insertByScoreDesc w a x _ hx with h | h
    · exact h ▸ List.mem_cons_self a t
    · exact List.mem_cons_of_mem a (ih h)

/-- The loop-freedom/filter invariant of the pathfinder search: the hop
destinations are pairwise distinct, never revisit the source, and every
hop passed the currency/liquidity filter. -/
def GoodPath (sourceUri : String) (currency : Currency) (amount : Nat)
    (path : List RouteEntry) : Prop :=
  (path.map fun h => h.destination_did).Nodup ∧
  sourceUri ∉ (path.map fun h => h.destination_did) ∧
  ∀ h ∈ path, h.supportsCurrency currency = true ∧
    amount ≤ h.available_liquidity



theorem expandEdge_good (cfg : PathFinderConfig) (sourceUri : String)
    (amount : Nat) (currency : Currency) (current : SearchNode)
    (edge : RouteEntry × String) (n : SearchNode)
    (hcur : GoodPath sourceUri currency amount current.path)
    (hsupp : edge.1.supportsCurrency currency = true)
    (hliq : amount ≤ edge.1.available_liquidity)
    (htgt : edge.2 = edge.1.destination_did)
    (hsome : expandEdge cfg sourceUri amount current edge = some n) :
    GoodPath sourceUri currency amount n.path := by
  simp only [expandEdge] at hsome
  split at hsome
  · exact Option.noConfusion hsome
  · next hc1 =>
    split at hsome
    · exact Option.noConfusion hsome
    · next hc2 =>
      rw [Option.some.injEq] at hsome
      subst hsome
      simp only [Bool.or_eq_true, List.any_eq_true, decide_eq_true_eq,
        not_or, not_exists] at hc1
      obtain ⟨hc1a, hc1b⟩ := hc1
      obtain ⟨hnd, hsrc, hall⟩ := hcur
      show GoodPath sourceUri currency amount (current.path ++ [edge.1])
      refine ⟨?_, ?_, ?_⟩
      · rw [List.map_append]
        simp only [List.map_cons, List.map_nil]
        rw [List.nodup_append]
        refine ⟨hnd, List.nodup_singleton _, ?_⟩
        intro a ha hb
        rw [List.mem_singleton] at hb
        subst hb
        obtain ⟨h, hh, hdest⟩ := List.mem_map.mp ha
        exact hc1a h ⟨hh, by rw [hdest, ← htgt]⟩
      · rw [List.map_append]
        simp only [List.map_cons, List.map_nil]
        intro hmem
        rcases List.mem_append.mp hmem with h | h
        · exact hsrc h
        · rw [List.mem_singleton] at h
          exact hc1b (by rw [htgt, ← h])
      · intro h hh
        rcases List.mem_append.mp hh with h1 | h1
        · exact hall h h1
        · rw [List.mem_singleton] at h1
          subst h1
          exact ⟨hsupp, hliq⟩

/-- The search loop only accumulates routes whose hop path satisfies the
loop-freedom and filter invariant, provided the heap, the found list and
the adjacency buckets do. -/
theorem searchLoop_goodPath (cfg : PathFinderConfig)
    (adj : List (String × List (RouteEntry × String)))
    (sourceUri destUri : String) (amount : Nat) (currency : Currency)
    (maxRoutes : Nat)
    (hadj : ∀ (k : String) (p : RouteEntry × String),
      p ∈ ((alistGet k adj).getD []) →
      (p.1.supportsCurrency currency = true ∧
        amount ≤ p.1.available_liquidity) ∧
      p.2 = p.1.destination_did) :
    ∀ (fuel : Nat) (heap : List SearchNode) (visits : String → Nat)
      (found : List Route),
      (∀ n ∈ heap, GoodPath sourceUri currency amount n.path) →
      (∀ r ∈ found, GoodPath sourceUri currency amount r.hops) →
      ∀ r ∈ searchLoop cfg adj sourceUri destUri amount currency
        maxRoutes fuel heap visits found,
        GoodPath sourceUri currency amount r.hops := by
  intro fuel
  induction fuel with
  | zero =>
    intro heap visits found hheap hfound r hr
    simp only [searchLoop] at hr
    exact hfound r hr
  | succ fuel ih =>
    intro heap visits found hheap hfound r hr
    cases hpop : popMax heap with
    | none =>
      simp only [searchLoop, hpop] at hr
      exact hfound r hr
    | some pr =>
      obtain ⟨current, heap'⟩ := pr
      obtain ⟨hcur_mem, hsub⟩ := popMax_mem hpop
      have hheap' : ∀ n ∈ heap', GoodPath sourceUri currency amount
          n.path := fun n hn => hheap n (hsub n hn)
      have hcurgood := hheap current hcur_mem
      simp only [searchLoop, hpop] at hr
      by_cases h1 : maxRoutes ≤ found.length
      · rw [if_pos h1] at hr
        exact hfound r hr
      · rw [if_neg h1] at hr
        by_cases h2 : maxRoutes < visits current.node_id + 1
        · rw [if_pos h2] at hr
          exact ih heap' _ found hheap' hfound r hr
        · rw [if_neg h2] at hr
          by_cases h3 : current.node_id = destUri
          · rw [if_pos h3] at hr
            by_cases h4 : current.path.isEmpty = true
            · rw [if_pos h4] at hr
              exact ih heap' _ found hheap' hfound r hr
            · rw [if_neg h4] at hr
              refine ih heap' _ _ hheap' ?_ r hr
              intro r' hr'
              rcases List.mem_append.mp hr' with h5 | h5
              · exact hfound r' h5
              · rw [List.mem_singleton] at h5
                subst h5
                exact hcurgood
          · rw [if_neg h3] at hr
            by_cases h5 : cfg.max_hops ≤ current.path.length
            · rw [if_pos h5] at hr
              exact ih heap' _ found hheap' hfound r hr
            · rw [if_neg h5] at hr
              refine ih _ _ found ?_ hfound r hr
              intro n hn
              rcases List.mem_append.mp hn with hn1 | hn2
              · obtain ⟨edge, hedge, hsome⟩ := List.mem_filterMap.mp hn1
                have hedgeP := hadj current.node_id edge hedge
                exact expandEdge_good cfg sourceUri amount currency
                  current edge n hcurgood hedgeP.1.1 hedgeP.1.2 hedgeP.2
                  hsome
              · exact hheap' n hn2



/-- C5. Every route returned by a successful `find_routes` call is
loop-free — no DID URI appears twice among the hop destinations and the
source URI never appears among them — and every hop of every returned
route supports the requested currency and has available liquidity at
least the requested amount. This holds for every fuel bound of the
search loop. -/
theorem find_routes_loop_free_and_filtered (cfg : PathFinderConfig)
    (drt : DistributedRoutingTable) (fromUri toUri : String)
    (amount : Nat) (currency : Currency) (maxRoutes fuel : Nat)
    (routes : List Route)
    (hok : findRoutes cfg drt fromUri toUri amount currency maxRoutes
      fuel = .ok routes) :
    ∀ r ∈ routes,
      (r.hops.map fun h => h.destination_did).Nodup ∧
      fromUri ∉ (r.hops.map fun h => h.destination_did) ∧
      ∀ h ∈ r.hops, h.supportsCurrency currency = true ∧
        amount ≤ h.available_liquidity := by
  intro r hr
  simp only [findRoutes] at hok
  split at hok
  · exact Except.noConfusion hok
  · split at hok
    · exact Except.noConfusion hok
    · rw [Except.ok.injEq] at hok
      subst hok
      have hmem := mem_sortByScoreDesc cfg.weights r _ hr
      have hgood := searchLoop_goodPath cfg
        (buildAdjacency drt amount currency) fromUri toUri amount currency
        maxRoutes
        (fun k p hp => buildAdjacency_mem drt amount currency k p hp)
        fuel [⟨fromUri, f64Max, [], 0, 0, 1, 2 ^ 128 - 1⟩] (fun _ => 0) []
        (by
          intro n hn
          rw [List.mem_singleton] at hn
          subst hn
          exact ⟨List.nodup_nil, List.not_mem_nil _,
            fun h hh => absurd hh (List.not_mem_nil h)⟩)
        (fun r' hr' => absurd hr' (List.not_mem_nil r'))
        r hmem
      exact hgood

/-- A one-entry routing table for the C5 witness. -/
def drtW : DistributedRoutingTable :=
  ⟨[⟨"p1", "did:gppn:key:bob", [Currency.Fiat FiatCurrency.USD], 100, 0,
    10, 1, 0, 60, 1⟩]⟩

/-- The pathfinder configuration for the C5 witness (trust threshold 0,
so the kernel can evaluate the comparison on exact rationals). -/
def cfgW : PathFinderConfig := ⟨3, 0, defaultWeights⟩

/-- The single route the C5 witness search finds. -/
def routeW : Route :=
  ⟨[⟨"p1", "did:gppn:key:bob", [Currency.Fiat FiatCurrency.USD], 100, 0,
    10, 1, 0, 60, 1⟩], Currency.Fiat FiatCurrency.USD, 50⟩

instance {ε α : Type} [DecidableEq ε] [DecidableEq α] :
    DecidableEq (Except ε α) := fun x y =>
  match x, y with
  | .ok a, .ok b =>
    if h : a = b then isTrue (by rw [h])
    else isFalse (by intro hc; injection hc; contradiction)
  | .error e, .error f =>
    if h : e = f then isTrue (by rw [h])
    else isFalse (by intro hc; injection hc; contradiction)
  | .ok _, .error _ => isFalse (fun hc => Except.noConfusion hc)
  | .error _, .ok _ => isFalse (fun hc => Except.noConfusion hc)

set_option maxRecDepth 40000 in
/-- C5 witness: a concrete one-hop search succeeds and the returned route
satisfies the loop-freedom and filter properties. -/
theorem find_routes_loop_free_witness :
    findRoutes cfgW drtW "did:gppn:key:p1" "did:gppn:key:bob" 50
      (Currency.Fiat FiatCurrency.USD) 3 5 = .ok [routeW] ∧
    ∀ r ∈ [routeW],
      (r.hops.map fun h => h.destination_did).Nodup ∧
      "did:gppn:key:p1" ∉ (r.hops.map fun h => h.destination_did) ∧
      ∀ h ∈ r.hops,
        h.supportsCurrency (Currency.Fiat FiatCurrency.USD) = true ∧
        50 ≤ h.available_liquidity :=
  have hok : findRoutes cfgW drtW "did:gppn:key:p1" "did:gppn:key:bob" 50
      (Currency.Fiat FiatCurrency.USD) 3 5 = .ok [routeW] := by decide
  ⟨hok, find_routes_loop_free_and_filtered cfgW drtW "did:gppn:key:p1"
    "did:gppn:key:bob" 50 (Currency.Fiat FiatCurrency.USD) 3 5 [routeW]
    hok⟩


end GPPN
